import Mathlib

/-!
# Faculty-Appraisal-Express: a shallow embedding

This file embeds the appraisal-lifecycle handlers, the verification merge,
the Part-D evaluator-mark routing and the verification-committee assignment
of the Faculty-Appraisal-Express backend, and proves the specification
claims about them.

The backing store is MongoDB, accessed through `findOneAndUpdate` with
`$set` on dotted paths, through document mutation plus `save()`, and through
`deleteMany` / upsert-style writes for committee rows.  Documents are
modelled as JSON-like values (`Val`), a `$set` on a dotted path as `setPath`,
and a whole `$set` record (whose keys are applied in insertion order, a
later assignment to the same key winning) as `applySets` over the ordered
list of (path, value) pairs.  JavaScript numbers are modelled as `Int`
(no claim involves fractional values or overflow).
-/

set_option maxHeartbeats 1000000

namespace FacultyAppraisal

/-- A JSON-like runtime value: the payloads handled by the Express handlers
and the documents stored in MongoDB. `date` carries an abstract timestamp. -/
inductive Val where
  | num  (n : Int)
  | str  (s : String)
  | bool (b : Bool)
  | date (t : Int)
  | null
  | obj  (fields : List (String × Val))

namespace Val

/-- Property read on a JS object / BSON document: first binding of the key. -/
def getKey : List (String × Val) → String → Option Val
  | [], _ => none
  | (k, v) :: rest, key => if k = key then some v else getKey rest key

/-- Property write: replaces the first binding of the key in place, appends
a new binding otherwise (JS object / BSON field-assignment semantics). -/
def setKey : List (String × Val) → String → Val → List (String × Val)
  | [], key, v => [(key, v)]
  | (k, w) :: rest, key, v =>
      if k = key then (k, v) :: rest else (k, w) :: setKey rest key v

end Val

/-- A dotted MongoDB path such as `partB.papers.sci.verified`, as its
list of components. -/
abbrev Path := List String

/-- Read a dotted path out of a value.  Property access on a non-object
yields nothing (JS `undefined` / missing BSON field). -/
def getPath : Val → Path → Option Val
  | v, [] => some v
  | .obj fs, k :: rest =>
      match Val.getKey fs k with
      | some v => getPath v rest
      | none => none
  | _, _ :: _ => none

/-- MongoDB `$set` on one dotted path: overwrites the addressed position,
creating intermediate objects where the path does not exist yet.  (The
handlers only ever `$set` through positions that are objects in the stored
schema; the non-object fallback overwrites with a fresh object.) -/
def setPath : Val → Path → Val → Val
  | _, [], v => v
  | .obj fs, k :: rest, v =>
      .obj (Val.setKey fs k (setPath ((Val.getKey fs k).getD (.obj [])) rest v))
  | _, k :: rest, v =>
      .obj (Val.setKey [] k (setPath (.obj []) rest v))

/-- Apply a `$set` record: its (path, value) pairs in insertion order. -/
def applySets (d : Val) (l : List (Path × Val)) : Val :=
  l.foldl (fun acc pv => setPath acc pv.1 pv.2) d

/-- `divergeB p q` holds when the two dotted paths disagree at some common
position, so that a `$set` on one cannot be observed through the other. -/
def divergeB : Path → Path → Bool
  | [], _ => false
  | _, [] => false
  | a :: p, b :: q => (a != b) || divergeB p q

/-- Projection helpers used to state concrete facts about stored values. -/
def asNum : Option Val → Option Int
  | some (.num n) => some n
  | _ => none

def asStr : Option Val → Option String
  | some (.str s) => some s
  | _ => none

def asBool : Option Val → Option Bool
  | some (.bool b) => some b
  | _ => none

def asDate : Option Val → Option Int
  | some (.date t) => some t
  | _ => none

/-- The field list of a value: an object's bindings, empty for non-objects
(property reads on primitives yield nothing). -/
def objFields : Val → List (String × Val)
  | .obj fs => fs
  | _ => []

-- ───────────────────────── string containment ─────────────────────────

def listStartsWith : List Char → List Char → Bool
  | _, [] => true
  | [], _ :: _ => false
  | h :: t, p :: ps => h = p && listStartsWith t ps

def listHasSub : List Char → List Char → Bool
  | [], pat => pat.isEmpty
  | h :: t, pat => listStartsWith (h :: t) pat || listHasSub t pat

/-- `strContains hay pat`: `pat` occurs as a contiguous substring of `hay`. -/
def strContains (hay pat : String) : Bool := listHasSub hay.data pat.data

-- ───────────────────────── JS helpers ─────────────────────────

/-- JavaScript truthiness of a (possibly missing) value.  `NaN` is not
representable in this model; no handler input produces it. -/
def jsTruthy : Option Val → Bool
  | none => false
  | some (.bool b) => b
  | some (.num n) => n != 0
  | some (.str s) => s != ""
  | some .null => false
  | some (.date _) => true
  | some (.obj _) => true

/-- `Object.assign(target, upd)`: copies the own enumerable fields of `upd`
onto `target` in order.  Non-object sources contribute no fields (the
handlers never pass a string source, whose index properties would copy). -/
def objAssign (target upd : Val) : Val :=
  match upd with
  | .obj ufs => .obj (ufs.foldl (fun acc kv => Val.setKey acc kv.1 kv.2) (objFields target))
  | _ => target

-- ───────────────────────── appraisal document ─────────────────────────

def APPRAISAL_STATUS : List String := ["DRAFT", "SUBMITTED", "VERIFIED", "APPROVED"]

/-- The stored `status` field, when it is a string (the schema enum). -/
def docStatus (doc : Val) : Option String := asStr (getPath doc ["status"])

/-- Template interpolation of `appraisal.status`: an absent field renders
as `undefined`, as in a JS template literal. -/
def statusText (doc : Val) : String := (docStatus doc).getD "undefined"

-- ──────────────── appraisal handlers (handlers/appraisal.handler.ts) ───────────────

def ownerErrMsg : String := "Unauthorized: you can only modify your own appraisal"

def lockedErrMsg (doc : Val) : String :=
  "Appraisal is locked (status: " ++ statusText doc ++ "). Only DRAFT appraisals can be edited."

/-- PUT /appraisal/:userId/part-a — whole-section `$set` of `partA`. -/
def updatePartA (requesterId targetId : String) (body doc : Val) : Val × Option String :=
  if requesterId ≠ targetId then (doc, some ownerErrMsg)
  else if docStatus doc ≠ some "DRAFT" then (doc, some (lockedErrMsg doc))
  else (setPath doc ["partA"] body, none)

/-- PUT /appraisal/:userId/part-b -/
def updatePartB (requesterId targetId : String) (body doc : Val) : Val × Option String :=
  if requesterId ≠ targetId then (doc, some ownerErrMsg)
  else if docStatus doc ≠ some "DRAFT" then (doc, some (lockedErrMsg doc))
  else (setPath doc ["partB"] body, none)

/-- PUT /appraisal/:userId/part-c -/
def updatePartC (requesterId targetId : String) (body doc : Val) : Val × Option String :=
  if requesterId ≠ targetId then (doc, some ownerErrMsg)
  else if docStatus doc ≠ some "DRAFT" then (doc, some (lockedErrMsg doc))
  else (setPath doc ["partC"] body, none)

/-- The evaluator-only Part D leaves destructured away from an owner body. -/
def evaluatorOnlyPartDKeys : List String :=
  ["deanMarks", "hodMarks", "directorMarks", "adminDeanMarks", "isMarkDean", "isMarkHOD"]

/-- Rest-destructuring `const { deanMarks, ..., ...facultyFields } = req.body`:
keeps the remaining own fields in order.  A non-object body has no own
fields to keep. -/
def stripPartDEvaluatorFields (body : Val) : Val :=
  .obj ((objFields body).filter (fun kv => !(evaluatorOnlyPartDKeys.contains kv.1)))

/-- PUT /appraisal/:userId/part-d — owner path; evaluator leaves stripped. -/
def updatePartD (requesterId targetId : String) (body doc : Val) : Val × Option String :=
  if requesterId ≠ targetId then (doc, some ownerErrMsg)
  else if docStatus doc ≠ some "DRAFT" then (doc, some (lockedErrMsg doc))
  else (setPath doc ["partD"] (stripPartDEvaluatorFields body), none)

/-- Rest-destructuring `const { evaluatorMarks, ...facultyFields } = req.body`. -/
def stripPartEEvaluatorFields (body : Val) : Val :=
  .obj ((objFields body).filter (fun kv => kv.1 != "evaluatorMarks"))

/-- PUT /appraisal/:userId/part-e -/
def updatePartE (requesterId targetId : String) (body doc : Val) : Val × Option String :=
  if requesterId ≠ targetId then (doc, some ownerErrMsg)
  else if docStatus doc ≠ some "DRAFT" then (doc, some (lockedErrMsg doc))
  else (setPath doc ["partE"] (stripPartEEvaluatorFields body), none)

/-- PATCH /appraisal/:userId/declaration -/
def updateDeclaration (requesterId targetId : String) (isAgreedVal doc : Val) :
    Val × Option String :=
  if requesterId ≠ targetId then (doc, some ownerErrMsg)
  else if docStatus doc ≠ some "DRAFT" then (doc, some (lockedErrMsg doc))
  else
    match isAgreedVal with
    | .bool b => (setPath doc ["declaration", "isAgreed"] (.bool b), none)
    | _ => (doc, some "\"isAgreed\" must be a boolean")

/-- PATCH /appraisal/:userId/submit — DRAFT → SUBMITTED, requires the
declaration agreement, stamps the signature date. -/
def submitAppraisal (requesterId targetId : String) (now : Int) (doc : Val) :
    Val × Option String :=
  if requesterId ≠ targetId then (doc, some ownerErrMsg)
  else if docStatus doc ≠ some "DRAFT" then
    (doc, some ("Cannot submit: appraisal is already in " ++ statusText doc ++ " status"))
  else if !(jsTruthy (getPath doc ["declaration", "isAgreed"])) then
    (doc, some "You must agree to the declaration before submitting")
  else
    (setPath (setPath doc ["status"] (.str "SUBMITTED"))
      ["declaration", "signatureDate"] (.date now), none)

-- ──────────────── verification merge (verifyAppraisal) ────────────────

def B_CATEGORIES : List String :=
  ["papers", "conferences", "bookChapters", "books", "citations",
   "copyrights", "patents", "grants", "products", "startup",
   "awards", "industryInteraction"]

/-- One category: `for (const [subKey, value] of Object.entries(cat))`,
keeping only numeric values, each emitting a point write to the sub-key's
`verified` leaf. -/
def emitEntries (c : String) : List (String × Val) → List (Path × Val)
  | [] => []
  | (s, .num n) :: rest => (["partB", c, s, "verified"], .num n) :: emitEntries c rest
  | _ :: rest => emitEntries c rest

/-- `const cat = partB[category]; if (cat && typeof cat === 'object')`. -/
def emitCategory (fs : List (String × Val)) (c : String) : List (Path × Val) :=
  match Val.getKey fs c with
  | some (.obj catFs) => emitEntries c catFs
  | _ => []

def emitCategories (fs : List (String × Val)) : List String → List (Path × Val)
  | [] => []
  | c :: cs => emitCategory fs c ++ emitCategories fs cs

/-- Single-metric category keys: `const val = partB[key]; if (typeof val
=== 'number') setFields[`partB.${key}.verified`] = val`. -/
def singleMetricField (fs : List (String × Val)) (k : String) : List (Path × Val) :=
  match Val.getKey fs k with
  | some (.num n) => [(["partB", k, "verified"], .num n)]
  | _ => []

def totalVerifiedField (fs : List (String × Val)) : List (Path × Val) :=
  match Val.getKey fs "totalVerified" with
  | some (.num n) => [(["partB", "totalVerified"], .num n)]
  | _ => []

/-- `typeof x === 'number'` read at a payload path, emitting a write to the
same dotted path. -/
def numFieldAt (vd : Val) (p : Path) : List (Path × Val) :=
  match getPath vd p with
  | some (.num n) => [(p, .num n)]
  | _ => []

/-- The verification payload's contribution to the `$set` record.  Property
reads on a missing or non-object `partB` (and the optional chains on
`partC` / `partE` / `summary`) contribute nothing, as in the handler. -/
def verifyDataFields (vd : Val) : List (Path × Val) :=
  (match getPath vd ["partB"] with
   | some (.obj fs) =>
       emitCategories fs B_CATEGORIES
         ++ singleMetricField fs "revenueTraining"
         ++ singleMetricField fs "placement"
         ++ totalVerifiedField fs
   | _ => [])
  ++ numFieldAt vd ["partC", "verifiedMarks"]
  ++ numFieldAt vd ["partE", "evaluatorMarks"]
  ++ numFieldAt vd ["summary", "grandTotalVerified"]

/-- The full `$set` record of a verify call: `{ status: 'VERIFIED' }`
extended with the payload's verified-leaf writes in insertion order.
(A falsy `verificationData` skips the whole block; a falsy or non-object
value also yields no fields through the property reads, so the `none`
arm covers both.) -/
def verifySetFields (vd? : Option Val) : List (Path × Val) :=
  (["status"], Val.str "VERIFIED") ::
    match vd? with
    | some vd => verifyDataFields vd
    | none => []

/-- PATCH /appraisal/:userId/verify — SUBMITTED → VERIFIED with a surgical
`$set` touching only verified leaves. -/
def verifyAppraisal (vd? : Option Val) (doc : Val) : Val × Option String :=
  if docStatus doc ≠ some "SUBMITTED" then
    (doc, some ("Cannot verify: appraisal must be SUBMITTED (current: " ++ statusText doc ++ ")"))
  else (applySets doc (verifySetFields vd?), none)

/-- PATCH /appraisal/:userId/approve — VERIFIED → APPROVED, optionally
recording the final grand total. -/
def approveAppraisal (gtv : Option Val) (doc : Val) : Val × Option String :=
  if docStatus doc ≠ some "VERIFIED" then
    (doc, some ("Cannot approve: appraisal must be VERIFIED (current: " ++ statusText doc ++ ")"))
  else
    (applySets doc ((["status"], Val.str "APPROVED") ::
      (match gtv with
       | some (.num n) => [(["summary", "grandTotalVerified"], Val.num n)]
       | _ => [])), none)

/-- DELETE /appraisal/:userId — owner-only, DRAFT-only.  The first
component is the store slot afterwards (`none` = deleted). -/
def deleteAppraisal (requesterId targetId : String) (doc : Val) :
    Option Val × Option String :=
  if requesterId ≠ targetId then (some doc, some ownerErrMsg)
  else if docStatus doc ≠ some "DRAFT" then
    (some doc, some "Only DRAFT appraisals can be deleted")
  else (none, none)

/-- PUT /appraisal/:userId/part-d/evaluator — role-routed single-mark
write, SUBMITTED-only. -/
def updatePartDEvaluator (role : String) (marks doc : Val) : Val × Option String :=
  if docStatus doc ≠ some "SUBMITTED" then
    (doc, some "Evaluator marks can only be entered after the faculty has submitted (SUBMITTED status)")
  else
    match marks with
    | .num m =>
        if m < 0 then (doc, some "A valid numeric \"marks\" value is required")
        else if role = "dean" then
          (applySets doc [(["partD", "deanMarks"], .num m), (["partD", "isMarkDean"], .bool true)], none)
        else if role = "hod" then
          (applySets doc [(["partD", "hodMarks"], .num m), (["partD", "isMarkHOD"], .bool true)], none)
        else if role = "director" then
          (setPath doc ["partD", "directorMarks"] (.num m), none)
        else if role = "associate_dean" then
          (setPath doc ["partD", "adminDeanMarks"] (.num m), none)
        else (doc, some "Your role does not permit entering evaluator marks")
    | _ => (doc, some "A valid numeric \"marks\" value is required")

/-- PUT /appraisal/:userId (legacy handler generation): whole-record
`Object.assign` update, rejected only on APPROVED records.  The request
body doubles as the requesting user. -/
def updateAppraisal (targetId : String) (body doc : Val) : Val × Option String :=
  if asStr (getPath body ["userId"]) ≠ some targetId then
    (doc, some "Unauthorized to update this appraisal")
  else if docStatus doc = some "APPROVED" then
    (doc, some "Cannot update approved appraisal")
  else (objAssign doc body, none)

-- ──────────────── committee (handlers/verificationTeam.handler.ts) ────────────────

/-- A user document (the fields the committee handler reads). -/
structure DUser where
  userId : String
  name : String
  department : String
  role : String
deriving DecidableEq

/-- A VerificationTeam row.  The verifier and faculty references are
modelled by the referenced users' unique `userId`s. -/
structure DTeam where
  verifierId : String
  department : String
  faculties : List String
deriving DecidableEq

/-- `Array.prototype.slice(s, e)`. -/
def jsSlice (l : List α) (s e : Nat) : List α := (l.drop s).take (e - s)

/-- `Math.ceil(a / b)` on non-negative integers with `b > 0` (the handler
only uses the quotient when the verifier loop is non-empty). -/
def jsCeilDiv (a b : Nat) : Nat := (a + b - 1) / b

/-- `User.find({ userId: { $in: ids } })`: the matching documents in
collection order (MongoDB does not reorder by the `$in` array). -/
def findUsersByIds (db : List DUser) (ids : List String) : List DUser :=
  db.filter (fun u => ids.contains u.userId)

def teamMatches (t : DTeam) (vid dept : String) : Bool :=
  t.verifierId = vid && t.department = dept

/-- `VerificationTeam.findOne + save` or `new VerificationTeam + save`:
replaces the faculties of the first matching row, appends a new row
otherwise. -/
def upsertTeam : List DTeam → String → String → List String → List DTeam
  | [], vid, dept, fac => [⟨vid, dept, fac⟩]
  | t :: ts, vid, dept, fac =>
      if teamMatches t vid dept then { t with faculties := fac } :: ts
      else t :: upsertTeam ts vid dept fac

/-- The per-verifier assignment loop: verifier `i` receives the roster
slice `[i*per, min((i+1)*per, rosterSize))`. -/
def assignTeams (dept : String) (fac : List DUser) (per : Nat) :
    List DTeam → Nat → List DUser → List DTeam
  | teams, _, [] => teams
  | teams, i, v :: vs =>
      assignTeams dept fac per
        (upsertTeam teams v.userId dept
          ((jsSlice fac (i * per) (min (i * per + per) fac.length)).map (·.userId)))
        (i + 1) vs

/-- POST /verification-committee/create.  Returns the VerificationTeam
collection afterwards and the error, if any.  Validation happens before
any row is deleted or written. -/
def createVerificationCommitteeByDept (db : List DUser) (teams : List DTeam)
    (department : String) (committeeIds : List String)
    (deletedVerifiers : List String) : List DTeam × Option String :=
  if department = "" then (teams, some "Department is required")
  else
    let verifiers := findUsersByIds db committeeIds
    if verifiers.length ≠ committeeIds.length then
      (teams, some "One or more committee IDs are invalid")
    else
      let sameDeptVerifiers := verifiers.filter (fun v => v.department = department)
      if sameDeptVerifiers.length > 0 then
        (teams, some ("Verifiers cannot be from the same department (" ++ department ++ ")"))
      else
        let departmentFaculty :=
          db.filter (fun u => u.department = department && u.role = "faculty")
        let deletedUserIds := (findUsersByIds db deletedVerifiers).map (·.userId)
        let t1 := teams.filter
          (fun t => !(t.department = department && deletedUserIds.contains t.verifierId))
        let existingVerifierIds := (findUsersByIds db committeeIds).map (·.userId)
        let t2 := t1.filter
          (fun t => !(t.department = department && !existingVerifierIds.contains t.verifierId))
        let facultyPerVerifier := jsCeilDiv departmentFaculty.length verifiers.length
        (assignTeams department departmentFaculty facultyPerVerifier t2 0 verifiers, none)

/-- The assignment row of a verifier for a department (first match, as
`VerificationTeam.findOne`). -/
def teamFor (teams : List DTeam) (vid dept : String) : Option DTeam :=
  teams.find? (fun t => teamMatches t vid dept)

-- ───────────────────── schema paths of Part B metrics ─────────────────────

def basesOfCats : List (String × List String) → List Path
  | [] => []
  | (c, ms) :: rest => ms.map (fun m => ["partB", c, m]) ++ basesOfCats rest

/-- The Part B nested metric groups of the stored schema with their
metric names. -/
def bCategoryMetrics : List (String × List String) :=
  [("papers", ["sci", "esci", "scopus", "ugc", "other"]),
   ("conferences", ["scopus", "other"]),
   ("bookChapters", ["scopus", "other"]),
   ("books", ["intlIndexed", "intlNational", "local"]),
   ("citations", ["wos", "scopus", "googleScholar"]),
   ("copyrights", ["individualRegistered", "individualGranted", "instituteRegistered", "instituteGranted"]),
   ("patents", ["individualRegistered", "individualPublished", "individualGranted", "individualCommercialized", "instituteRegistered", "institutePublished", "instituteGranted", "instituteCommercialized"]),
   ("grants", ["research", "nonResearch"]),
   ("products", ["commercialized", "developed", "poc"]),
   ("startup", ["revenue", "funding", "product", "poc", "registered"]),
   ("awards", ["international", "government", "national", "intlFellowship", "nationalFellowship"]),
   ("industryInteraction", ["activeMou", "collaboration"])]

/-- The dotted base path of every `ScoredMetric` of the stored schema:
the nested Part B groups plus the two single-metric categories. -/
def partBMetricBases : List Path :=
  basesOfCats bCategoryMetrics ++ [["partB", "revenueTraining"], ["partB", "placement"]]

/-- The faculty-owned leaves of a metric. -/
def facultyLeaves : List String := ["count", "amount", "claimed", "proof"]

/-- Every path emitted from the verification payload has one of these
shapes. -/
def VDataShape (q : Path) : Prop :=
  (∃ c s, c ∈ B_CATEGORIES ∧ q = ["partB", c, s, "verified"]) ∨
  q = ["partB", "revenueTraining", "verified"] ∨
  q = ["partB", "placement", "verified"] ∨
  q = ["partB", "totalVerified"] ∨
  q = ["partC", "verifiedMarks"] ∨
  q = ["partE", "evaluatorMarks"] ∨
  q = ["summary", "grandTotalVerified"]

/-- Every path in the `$set` record of a verify call has one of these
shapes. -/
def VShape (q : Path) : Prop :=
  q = ["status"] ∨ VDataShape q

/-- Well-formedness of a verification payload: each iterated category
object has JS-object key uniqueness (duplicate keys cannot arise from a
JSON request body). -/
def payloadCatsWF (vd : Val) : Bool :=
  B_CATEGORIES.all (fun c =>
    match getPath vd ["partB", c] with
    | some (.obj catFs) => decide ((catFs.map Prod.fst).Nodup)
    | _ => true)

/-- The faculty list stored for a verifier, read back as `findOne` does. -/
def assignedFac (teams : List DTeam) (vid dept : String) : Option (List String) :=
  (teamFor teams vid dept).map (·.faculties)

-- ───────────────────────── sample data ─────────────────────────

/-- A stored `ScoredMetric` with the given claimed and verified marks. -/
def sampleMark (cl vf : Int) : Val :=
  .obj [("count", .num 1), ("proof", .str "url"),
        ("claimed", .num cl), ("verified", .num vf)]

/-- A small concrete appraisal document in the given status. -/
def sampleDoc (status : String) : Val :=
  .obj [("userId", .str "u1"),
        ("status", .str status),
        ("partB", .obj [("papers", .obj [("sci", sampleMark 7 0)]),
                        ("totalClaimed", .num 7), ("totalVerified", .num 0)]),
        ("partD", .obj [("selfAwardedMarks", .num 5), ("deanMarks", .num 0)]),
        ("declaration", .obj [("isAgreed", .bool true)]),
        ("summary", .obj [("grandTotalClaimed", .num 7), ("grandTotalVerified", .num 0)])]

/-- A concrete verification payload: a numeric leaf, a non-numeric leaf to
be skipped, a rollup and a Part C mark. -/
def sampleVD : Val :=
  .obj [("partB", .obj [("papers", .obj [("sci", .num 9), ("note", .str "x")]),
                        ("totalVerified", .num 9)]),
        ("partC", .obj [("verifiedMarks", .num 3)])]

/-- A legacy whole-record update body (the body doubles as the requesting
user): overwrites Part B wholesale, including `claimed`. -/
def sampleLegacyUpdate : Val :=
  .obj [("userId", .str "u1"),
        ("partB", .obj [("papers", .obj [("sci", sampleMark 99 0)])])]

def mkUser (uid dept role : String) : DUser := ⟨uid, uid, dept, role⟩

/-- User collection: verifiers A, B (dept `it`) before the 5 `cs` faculty,
in collection order A, B, f1..f5. -/
def sampleUserDb : List DUser :=
  [mkUser "A" "it" "dean", mkUser "B" "it" "hod",
   mkUser "f1" "cs" "faculty", mkUser "f2" "cs" "faculty", mkUser "f3" "cs" "faculty",
   mkUser "f4" "cs" "faculty", mkUser "f5" "cs" "faculty"]

/-- The same collection with B stored before A: `$in` lookups return
collection order, not the request order. -/
def sampleUserDbSwapped : List DUser :=
  [mkUser "B" "it" "hod", mkUser "A" "it" "dean",
   mkUser "f1" "cs" "faculty", mkUser "f2" "cs" "faculty", mkUser "f3" "cs" "faculty",
   mkUser "f4" "cs" "faculty", mkUser "f5" "cs" "faculty"]

-- ═══════════════════════════ THEOREMS ═══════════════════════════

-- ───────────────────────── core path lemmas ─────────────────────────

theorem getKey_setKey_same (fs : List (String × Val)) (k : String) (v : Val) :
    Val.getKey (Val.setKey fs k v) k = some v := by
  induction fs with
  | nil => simp [Val.setKey, Val.getKey]
  | cons hd tl ih =>
      obtain ⟨k', w⟩ := hd
      by_cases h : k' = k
      · simp [Val.setKey, Val.getKey, h]
      · simp [Val.setKey, Val.getKey, h, ih]

theorem getKey_setKey_ne (fs : List (String × Val)) (k j : String) (v : Val)
    (h : j ≠ k) : Val.getKey (Val.setKey fs k v) j = Val.getKey fs j := by
  have hkj : ¬ k = j := fun e => h e.symm
  induction fs with
  | nil => simp [Val.setKey, Val.getKey, hkj]
  | cons hd tl ih =>
      obtain ⟨k', w⟩ := hd
      by_cases h' : k' = k
      · subst h'
        simp [Val.setKey, Val.getKey, hkj]
      · simp only [Val.setKey, if_neg h', Val.getKey]
        by_cases h'' : k' = j <;> simp [h'', ih]

@[simp] theorem objFields_obj (fs : List (String × Val)) : objFields (.obj fs) = fs := rfl

theorem getPath_cons (d : Val) (k : String) (rest : Path) :
    getPath d (k :: rest) =
      (Val.getKey (objFields d) k).bind (fun v => getPath v rest) := by
  cases d with
  | obj fs => cases hg : Val.getKey fs k <;> simp [getPath, objFields, hg]
  | num n => rfl
  | str s => rfl
  | bool b => rfl
  | date t => rfl
  | null => rfl

theorem setPath_cons (d : Val) (k : String) (rest : Path) (v : Val) :
    setPath d (k :: rest) v =
      .obj (Val.setKey (objFields d) k
        (setPath ((Val.getKey (objFields d) k).getD (.obj [])) rest v)) := by
  cases d <;> rfl

theorem getPath_setPath_same (p : Path) (d v : Val) :
    getPath (setPath d p v) p = some v := by
  induction p generalizing d with
  | nil => simp [setPath, getPath]
  | cons k rest ih =>
      rw [setPath_cons, getPath_cons, objFields_obj, getKey_setKey_same]
      simpa using ih _

theorem divergeB_nonnil_left {p q : Path} (h : divergeB p q = true) : p ≠ [] := by
  intro e; subst e; simp [divergeB] at h

theorem divergeB_nonnil_right {p q : Path} (h : divergeB p q = true) : q ≠ [] := by
  intro e; subst e; cases p <;> simp [divergeB] at h

/-- A `$set` along a diverging path is invisible through `getPath`. -/
theorem getPath_setPath_of_diverge {p q : Path} (h : divergeB p q = true) :
    ∀ (d v : Val), getPath (setPath d q v) p = getPath d p := by
  induction q generalizing p with
  | nil => exact absurd rfl (divergeB_nonnil_right h)
  | cons k qt ih =>
      cases p with
      | nil => exact absurd rfl (divergeB_nonnil_left h)
      | cons j pt =>
          intro d v
          rw [setPath_cons, getPath_cons, getPath_cons, objFields_obj]
          by_cases hjk : j = k
          · subst hjk
            have hrest : divergeB pt qt = true := by
              simpa [divergeB] using h
            rw [getKey_setKey_same]
            cases hg : Val.getKey (objFields d) j with
            | some u => simp [ih hrest]
            | none =>
                cases pt with
                | nil => exact absurd rfl (divergeB_nonnil_left hrest)
                | cons j' pt' =>
                    show getPath (setPath (Val.obj []) qt v) (j' :: pt') = none
                    rw [ih hrest, getPath_cons]
                    rfl
          · rw [getKey_setKey_ne _ _ _ _ hjk]

/-- Frame property of a `$set` record: a path diverging from every written
path reads the same before and after. -/
theorem getPath_applySets_frame {p : Path} {l : List (Path × Val)}
    (h : ∀ qv ∈ l, divergeB p qv.1 = true) (d : Val) :
    getPath (applySets d l) p = getPath d p := by
  induction l generalizing d with
  | nil => rfl
  | cons hd tl ih =>
      have h1 : divergeB p hd.1 = true := h hd (List.mem_cons_self hd tl)
      have h2 : ∀ qv ∈ tl, divergeB p qv.1 = true := fun qv hq => h qv (List.mem_cons_of_mem hd hq)
      simp only [applySets, List.foldl_cons]
      rw [show (List.foldl (fun acc pv => setPath acc pv.1 pv.2) (setPath d hd.1 hd.2) tl)
            = applySets (setPath d hd.1 hd.2) tl from rfl,
          ih h2, getPath_setPath_of_diverge h1]

theorem applySets_append (d : Val) (l₁ l₂ : List (Path × Val)) :
    applySets d (l₁ ++ l₂) = applySets (applySets d l₁) l₂ := by
  simp [applySets, List.foldl_append]

/-- Last-writer lemma: if the written record splits around an entry for `p`
and every later entry diverges from `p`, then `p` reads that entry's value. -/
theorem getPath_applySets_split (d : Val) {p : Path} (v : Val)
    (l₁ l₂ : List (Path × Val)) (h : ∀ qv ∈ l₂, divergeB p qv.1 = true) :
    getPath (applySets d (l₁ ++ (p, v) :: l₂)) p = some v := by
  rw [applySets_append]
  show getPath (applySets (setPath (applySets d l₁) p v) l₂) p = some v
  rw [getPath_applySets_frame h, getPath_setPath_same]

-- ───────────────── lemmas: shape of the verification `$set` ─────────────────

theorem getPath_append (d : Val) (p q : Path) :
    getPath d (p ++ q) = (getPath d p).bind (fun v => getPath v q) := by
  induction p generalizing d with
  | nil => simp [getPath]
  | cons k rest ih =>
      rw [List.cons_append, getPath_cons, getPath_cons]
      cases Val.getKey (objFields d) k with
      | none => rfl
      | some v => simp [ih]

theorem mem_emitEntries {c : String} {l : List (String × Val)} {qv : Path × Val}
    (h : qv ∈ emitEntries c l) :
    ∃ s n, qv = (["partB", c, s, "verified"], Val.num n) ∧ (s, Val.num n) ∈ l := by
  induction l with
  | nil => simp [emitEntries] at h
  | cons hd tl ih =>
      obtain ⟨s, v⟩ := hd
      cases v with
      | num n =>
          rcases List.mem_cons.mp h with h | h
          · exact ⟨s, n, h, List.mem_cons_self _ _⟩
          · obtain ⟨s', n', he, hm⟩ := ih h
            exact ⟨s', n', he, List.mem_cons_of_mem _ hm⟩
      | str s' => obtain ⟨a, b, he, hm⟩ := ih h; exact ⟨a, b, he, List.mem_cons_of_mem _ hm⟩
      | bool b' => obtain ⟨a, b, he, hm⟩ := ih h; exact ⟨a, b, he, List.mem_cons_of_mem _ hm⟩
      | date t' => obtain ⟨a, b, he, hm⟩ := ih h; exact ⟨a, b, he, List.mem_cons_of_mem _ hm⟩
      | null => obtain ⟨a, b, he, hm⟩ := ih h; exact ⟨a, b, he, List.mem_cons_of_mem _ hm⟩
      | obj fs' => obtain ⟨a, b, he, hm⟩ := ih h; exact ⟨a, b, he, List.mem_cons_of_mem _ hm⟩

theorem mem_emitCategory {fs : List (String × Val)} {c : String} {qv : Path × Val}
    (h : qv ∈ emitCategory fs c) :
    ∃ catFs, Val.getKey fs c = some (.obj catFs) ∧ qv ∈ emitEntries c catFs := by
  unfold emitCategory at h
  split at h
  · next catFs heq => exact ⟨catFs, heq, h⟩
  · simp at h

theorem mem_emitCategories {fs : List (String × Val)} {cs : List String} {qv : Path × Val}
    (h : qv ∈ emitCategories fs cs) : ∃ c ∈ cs, qv ∈ emitCategory fs c := by
  induction cs with
  | nil => simp [emitCategories] at h
  | cons c cs ih =>
      rcases List.mem_append.mp h with h | h
      · exact ⟨c, List.mem_cons_self _ _, h⟩
      · obtain ⟨c', hc', hm⟩ := ih h
        exact ⟨c', List.mem_cons_of_mem _ hc', hm⟩

theorem mem_singleMetricField {fs : List (String × Val)} {k : String} {qv : Path × Val}
    (h : qv ∈ singleMetricField fs k) :
    ∃ n, qv = (["partB", k, "verified"], Val.num n) ∧ Val.getKey fs k = some (.num n) := by
  unfold singleMetricField at h
  split at h
  · next n heq => rcases List.mem_singleton.mp h with rfl; exact ⟨n, rfl, heq⟩
  · simp at h

theorem mem_totalVerifiedField {fs : List (String × Val)} {qv : Path × Val}
    (h : qv ∈ totalVerifiedField fs) :
    ∃ n, qv = (["partB", "totalVerified"], Val.num n) ∧
      Val.getKey fs "totalVerified" = some (.num n) := by
  unfold totalVerifiedField at h
  split at h
  · next n heq => rcases List.mem_singleton.mp h with rfl; exact ⟨n, rfl, heq⟩
  · simp at h

theorem mem_numFieldAt {vd : Val} {p : Path} {qv : Path × Val}
    (h : qv ∈ numFieldAt vd p) :
    ∃ n, qv = (p, Val.num n) ∧ getPath vd p = some (.num n) := by
  unfold numFieldAt at h
  split at h
  · next n heq => rcases List.mem_singleton.mp h with rfl; exact ⟨n, rfl, heq⟩
  · simp at h

theorem shape_verifyDataFields {vd : Val} {qv : Path × Val}
    (h : qv ∈ verifyDataFields vd) : VDataShape qv.1 := by
  unfold verifyDataFields at h
  simp only [List.mem_append] at h
  rcases h with ((h | h) | h) | h
  · split at h
    · next fs _ =>
        simp only [List.mem_append] at h
        rcases h with ((h | h) | h) | h
        · obtain ⟨c, hc, hm⟩ := mem_emitCategories h
          obtain ⟨catFs, _, hm'⟩ := mem_emitCategory hm
          obtain ⟨s, n, rfl, _⟩ := mem_emitEntries hm'
          exact Or.inl ⟨c, s, hc, rfl⟩
        · obtain ⟨n, rfl, _⟩ := mem_singleMetricField h
          exact Or.inr (Or.inl rfl)
        · obtain ⟨n, rfl, _⟩ := mem_singleMetricField h
          exact Or.inr (Or.inr (Or.inl rfl))
        · obtain ⟨n, rfl, _⟩ := mem_totalVerifiedField h
          exact Or.inr (Or.inr (Or.inr (Or.inl rfl)))
    · simp at h
  · obtain ⟨n, rfl, _⟩ := mem_numFieldAt h
    exact Or.inr (Or.inr (Or.inr (Or.inr (Or.inl rfl))))
  · obtain ⟨n, rfl, _⟩ := mem_numFieldAt h
    exact Or.inr (Or.inr (Or.inr (Or.inr (Or.inr (Or.inl rfl)))))
  · obtain ⟨n, rfl, _⟩ := mem_numFieldAt h
    exact Or.inr (Or.inr (Or.inr (Or.inr (Or.inr (Or.inr rfl)))))

theorem shape_verifySetFields {vd? : Option Val} {qv : Path × Val}
    (h : qv ∈ verifySetFields vd?) : VShape qv.1 := by
  unfold verifySetFields at h
  rcases List.mem_cons.mp h with h | h
  · subst h; exact Or.inl rfl
  · cases vd? with
    | some vd => exact Or.inr (shape_verifyDataFields h)
    | none => simp at h

-- decidable facts about the concrete schema tables

theorem cat_not_special : ∀ c ∈ B_CATEGORIES,
    c ≠ "revenueTraining" ∧ c ≠ "placement" ∧ c ≠ "totalVerified" := by decide

theorem leaf_ne_verified : ∀ leaf ∈ facultyLeaves, leaf ≠ "verified" := by decide

theorem bCategoryMetrics_facts : ∀ cm ∈ bCategoryMetrics,
    cm.1 ∈ B_CATEGORIES ∧ ∀ m ∈ cm.2, m ≠ "verified" := by decide

theorem mem_basesOfCats {l : List (String × List String)} {b : Path}
    (h : b ∈ basesOfCats l) : ∃ cm ∈ l, ∃ m ∈ cm.2, b = ["partB", cm.1, m] := by
  induction l with
  | nil => simp [basesOfCats] at h
  | cons hd tl ih =>
      rcases List.mem_append.mp h with h | h
      · obtain ⟨m, hm, rfl⟩ := List.mem_map.mp h
        exact ⟨hd, List.mem_cons_self _ _, m, hm, rfl⟩
      · obtain ⟨cm, hcm, m, hm, he⟩ := ih h
        exact ⟨cm, List.mem_cons_of_mem _ hcm, m, hm, he⟩

theorem mem_partBMetricBases {b : Path} (hb : b ∈ partBMetricBases) :
    (∃ c m, b = ["partB", c, m] ∧ c ∈ B_CATEGORIES ∧ m ≠ "verified") ∨
    b = ["partB", "revenueTraining"] ∨ b = ["partB", "placement"] := by
  unfold partBMetricBases at hb
  rcases List.mem_append.mp hb with hb | hb
  · obtain ⟨cm, hcm, m, hm, rfl⟩ := mem_basesOfCats hb
    obtain ⟨hcB, hms⟩ := bCategoryMetrics_facts cm hcm
    exact Or.inl ⟨cm.1, m, rfl, hcB, hms m hm⟩
  · rcases List.mem_cons.mp hb with h | h
    · exact Or.inr (Or.inl h)
    · exact Or.inr (Or.inr (List.mem_singleton.mp h))

/-- Every faculty-owned metric leaf diverges from every path the verify
`$set` can write. -/
theorem diverge_facultyLeaf_vshape {base : Path} (hb : base ∈ partBMetricBases)
    {leaf : String} (hl : leaf ∈ facultyLeaves) {q : Path} (hq : VShape q) :
    divergeB (base ++ [leaf]) q = true := by
  have hlv : leaf ≠ "verified" := leaf_ne_verified leaf hl
  rcases mem_partBMetricBases hb with ⟨c, m, rfl, hcB, hmv⟩ | rfl | rfl <;>
    rcases hq with rfl | ⟨c', s', hc'B, rfl⟩ | rfl | rfl | rfl | rfl | rfl | rfl <;>
      simp [divergeB, Bool.or_eq_true, bne_iff_ne] <;>
        first
          | tauto
          | exact (cat_not_special _ (by assumption)).2.2
          | exact Or.inl fun e => (cat_not_special _ (by assumption)).1 e.symm
          | exact Or.inl fun e => (cat_not_special _ (by assumption)).2.1 e.symm

/-- Frame property of the verification merge: the faculty-owned leaves of
every schema metric read the same before and after. -/
theorem verify_frame_facultyLeaf (doc : Val) (vd? : Option Val)
    {base : Path} (hb : base ∈ partBMetricBases)
    {leaf : String} (hl : leaf ∈ facultyLeaves) :
    getPath (applySets doc (verifySetFields vd?)) (base ++ [leaf]) =
      getPath doc (base ++ [leaf]) :=
  getPath_applySets_frame
    (fun _qv hqv => diverge_facultyLeaf_vshape hb hl (shape_verifySetFields hqv)) doc

theorem diverge_status_vdata {vd : Val} {qv : Path × Val}
    (h : qv ∈ verifyDataFields vd) : divergeB ["status"] qv.1 = true := by
  rcases shape_verifyDataFields h with ⟨c', s', _, he⟩ | he | he | he | he | he | he <;>
    rw [he] <;> rfl

/-- After a successful verification merge the stored status is VERIFIED
(the later payload writes never touch `status`). -/
theorem verify_status_after (doc : Val) (vd? : Option Val) :
    docStatus (applySets doc (verifySetFields vd?)) = some "VERIFIED" := by
  unfold docStatus
  have : getPath (applySets doc (verifySetFields vd?)) ["status"] =
      some (Val.str "VERIFIED") := by
    show getPath (applySets doc ([] ++ (["status"], Val.str "VERIFIED") ::
      (match vd? with | some vd => verifyDataFields vd | none => []))) ["status"] = _
    apply getPath_applySets_split
    intro qv hqv
    cases vd? with
    | some vd => exact diverge_status_vdata hqv
    | none => simp at hqv
  rw [this]; rfl

-- ───────────────── lemmas: locating entries in the verify `$set` ─────────────────

theorem asNum_eq_some {x : Option Val} {n : Int} :
    asNum x = some n ↔ x = some (.num n) := by
  cases x with
  | none => simp [asNum]
  | some v => cases v <;> simp [asNum]

theorem all_eq_true_of_mem {α} {l : List α} {f : α → Bool} (h : l.all f = true)
    {x : α} (hx : x ∈ l) : f x = true := by
  rw [List.all_eq_true] at h; exact h x hx

theorem getPath_one (d : Val) (a : String) :
    getPath d [a] = Val.getKey (objFields d) a := by
  rw [getPath_cons]; cases Val.getKey (objFields d) a <;> simp [getPath]

theorem getKey_some_split {fs : List (String × Val)} {k : String} {v : Val}
    (h : Val.getKey fs k = some v) : ∃ l₁ l₂, fs = l₁ ++ (k, v) :: l₂ := by
  induction fs with
  | nil => simp [Val.getKey] at h
  | cons hd tl ih =>
      obtain ⟨k', w⟩ := hd
      by_cases hk : k' = k
      · subst hk
        rw [Val.getKey, if_pos rfl] at h
        obtain rfl := Option.some.inj h
        exact ⟨[], tl, by simp⟩
      · rw [Val.getKey, if_neg hk] at h
        obtain ⟨l₁, l₂, he⟩ := ih h
        exact ⟨(k', w) :: l₁, l₂, by simp [he]⟩

theorem getKey_of_mem_nodup {fs : List (String × Val)} {k : String} {v : Val}
    (hnd : (fs.map Prod.fst).Nodup) (hm : (k, v) ∈ fs) :
    Val.getKey fs k = some v := by
  induction fs with
  | nil => simp at hm
  | cons hd tl ih =>
      obtain ⟨k', w⟩ := hd
      rcases List.mem_cons.mp hm with he | hm'
      · obtain ⟨rfl, rfl⟩ := Prod.mk.inj he.symm
        rw [Val.getKey, if_pos rfl]
      · have hk : k' ≠ k := by
          intro e; subst e
          exact (List.nodup_cons.mp (by simpa using hnd)).1
            (List.mem_map_of_mem Prod.fst hm')
        rw [Val.getKey, if_neg hk]
        exact ih (List.nodup_cons.mp (by simpa using hnd)).2 hm'

theorem keys_ne_of_nodup_split {l₁ l₂ : List (String × Val)} {k : String} {v : Val}
    (hnd : ((l₁ ++ (k, v) :: l₂).map Prod.fst).Nodup) : ∀ kv ∈ l₂, kv.1 ≠ k := by
  intro kv hkv e
  rw [List.map_append] at hnd
  have h2 := List.Nodup.of_append_right hnd
  rw [List.map_cons] at h2
  have hmem : kv.1 ∈ l₂.map Prod.fst := List.mem_map_of_mem Prod.fst hkv
  rw [e] at hmem
  exact (List.nodup_cons.mp h2).1 hmem

theorem emitEntries_append (c : String) (a b : List (String × Val)) :
    emitEntries c (a ++ b) = emitEntries c a ++ emitEntries c b := by
  induction a with
  | nil => rfl
  | cons hd tl ih =>
      obtain ⟨s, v⟩ := hd
      cases v <;> simp [emitEntries, ih]

theorem emitCategories_append (fs : List (String × Val)) (a b : List String) :
    emitCategories fs (a ++ b) = emitCategories fs a ++ emitCategories fs b := by
  induction a with
  | nil => rfl
  | cons c cs ih => simp [emitCategories, ih]

theorem payloadWF_nodup {vd : Val} {c : String} {catFs : List (String × Val)}
    (hwf : payloadCatsWF vd = true) (hc : c ∈ B_CATEGORIES)
    (h : getPath vd ["partB", c] = some (.obj catFs)) :
    (catFs.map Prod.fst).Nodup := by
  have hx := all_eq_true_of_mem hwf hc
  rw [h] at hx
  exact of_decide_eq_true hx

theorem getPath_partB_cat {vd : Val} {fs catFs : List (String × Val)} {c : String}
    (hpb : getPath vd ["partB"] = some (.obj fs))
    (hcat : Val.getKey fs c = some (.obj catFs)) :
    getPath vd ["partB", c] = some (.obj catFs) := by
  rw [show (["partB", c] : Path) = ["partB"] ++ [c] from rfl, getPath_append, hpb]
  show getPath (Val.obj fs) [c] = _
  rw [getPath_one]
  exact hcat

theorem getPath_partB_cat_leaf {vd : Val} {fs catFs : List (String × Val)}
    {c m : String} {w : Val}
    (hpb : getPath vd ["partB"] = some (.obj fs))
    (hcat : Val.getKey fs c = some (.obj catFs))
    (hm : Val.getKey catFs m = some w) :
    getPath vd ["partB", c, m] = some w := by
  rw [show (["partB", c, m] : Path) = ["partB", c] ++ [m] from rfl, getPath_append,
    getPath_partB_cat hpb hcat]
  show getPath (Val.obj catFs) [m] = _
  rw [getPath_one]
  exact hm

theorem getPath_three_decomp {vd : Val} {c m : String} {w : Val}
    (h : getPath vd ["partB", c, m] = some w) :
    ∃ fs catFs, getPath vd ["partB"] = some (.obj fs) ∧
      Val.getKey fs c = some (.obj catFs) ∧ Val.getKey catFs m = some w := by
  rw [show (["partB", c, m] : Path) = ["partB"] ++ [c, m] from rfl, getPath_append] at h
  cases hpb : getPath vd ["partB"] with
  | none => rw [hpb] at h; simp at h
  | some pb =>
      rw [hpb] at h
      replace h : getPath pb [c, m] = some w := h
      cases pb with
      | obj fs =>
          rw [show ([c, m] : Path) = [c] ++ [m] from rfl, getPath_append, getPath_one] at h
          simp only [objFields_obj] at h
          cases hcat : Val.getKey fs c with
          | none => rw [hcat] at h; simp [objFields] at h
          | some cat =>
              rw [hcat] at h
              replace h : getPath cat [m] = some w := h
              cases cat with
              | obj catFs =>
                  rw [getPath_one] at h
                  exact ⟨fs, catFs, rfl, hcat, h⟩
              | num n => rw [getPath_one] at h; simp [objFields, Val.getKey] at h
              | str s => rw [getPath_one] at h; simp [objFields, Val.getKey] at h
              | bool b => rw [getPath_one] at h; simp [objFields, Val.getKey] at h
              | date t => rw [getPath_one] at h; simp [objFields, Val.getKey] at h
              | null => rw [getPath_one] at h; simp [objFields, Val.getKey] at h
      | num n => simp [getPath_cons, objFields, Val.getKey] at h
      | str s => simp [getPath_cons, objFields, Val.getKey] at h
      | bool b => simp [getPath_cons, objFields, Val.getKey] at h
      | date t => simp [getPath_cons, objFields, Val.getKey] at h
      | null => simp [getPath_cons, objFields, Val.getKey] at h

theorem getPath_two_decomp {vd : Val} {k : String} {w : Val}
    (h : getPath vd ["partB", k] = some w) :
    ∃ fs, getPath vd ["partB"] = some (.obj fs) ∧ Val.getKey fs k = some w := by
  rw [show (["partB", k] : Path) = ["partB"] ++ [k] from rfl, getPath_append] at h
  cases hpb : getPath vd ["partB"] with
  | none => rw [hpb] at h; simp at h
  | some pb =>
      rw [hpb] at h
      replace h : getPath pb [k] = some w := h
      rw [getPath_one] at h
      cases pb with
      | obj fs => exact ⟨fs, rfl, h⟩
      | num n => simp [objFields, Val.getKey] at h
      | str s => simp [objFields, Val.getKey] at h
      | bool b => simp [objFields, Val.getKey] at h
      | date t => simp [objFields, Val.getKey] at h
      | null => simp [objFields, Val.getKey] at h

theorem nodup_B_CATEGORIES : B_CATEGORIES.Nodup := by decide

/-- A numeric leaf of an iterated Part B category present in the payload is
written to the corresponding `verified` leaf (and survives every later
write of the merge). -/
theorem verify_stores_catLeaf (doc vd : Val) {c m : String} {n : Int}
    {fs catFs : List (String × Val)}
    (hc : c ∈ B_CATEGORIES)
    (hpb : getPath vd ["partB"] = some (.obj fs))
    (hcat : Val.getKey fs c = some (.obj catFs))
    (hnd : (catFs.map Prod.fst).Nodup)
    (hm : Val.getKey catFs m = some (.num n)) :
    getPath (applySets doc (verifySetFields (some vd))) ["partB", c, m, "verified"]
      = some (.num n) := by
  obtain ⟨cs₁, cs₂, hcs⟩ := List.append_of_mem hc
  have hc2 : c ∉ cs₂ := by
    have hnodupB := nodup_B_CATEGORIES
    rw [hcs] at hnodupB
    exact (List.nodup_cons.mp (List.Nodup.of_append_right hnodupB)).1
  obtain ⟨k₁, k₂, hk⟩ := getKey_some_split hm
  have hknd : ∀ kv ∈ k₂, kv.1 ≠ m := keys_ne_of_nodup_split (hk ▸ hnd)
  rw [show verifySetFields (some vd)
      = (["status"], Val.str "VERIFIED") :: verifyDataFields vd from rfl]
  have hdata : verifyDataFields vd
      = emitCategories fs B_CATEGORIES ++ singleMetricField fs "revenueTraining"
        ++ singleMetricField fs "placement" ++ totalVerifiedField fs
        ++ numFieldAt vd ["partC", "verifiedMarks"]
        ++ numFieldAt vd ["partE", "evaluatorMarks"]
        ++ numFieldAt vd ["summary", "grandTotalVerified"] := by
    unfold verifyDataFields
    rw [hpb]
  have hlist : ((["status"], Val.str "VERIFIED") :: verifyDataFields vd
        : List (Path × Val)) =
      ((["status"], Val.str "VERIFIED") :: (emitCategories fs cs₁ ++ emitEntries c k₁))
        ++ (["partB", c, m, "verified"], Val.num n)
          :: (emitEntries c k₂ ++ (emitCategories fs cs₂
              ++ (singleMetricField fs "revenueTraining" ++ (singleMetricField fs "placement"
              ++ (totalVerifiedField fs
              ++ (numFieldAt vd ["partC", "verifiedMarks"]
              ++ (numFieldAt vd ["partE", "evaluatorMarks"]
              ++ numFieldAt vd ["summary", "grandTotalVerified"]))))))) := by
    have hemit : emitCategory fs c = emitEntries c catFs := by
      unfold emitCategory; rw [hcat]
    rw [hdata, hcs, emitCategories_append,
      show emitCategories fs (c :: cs₂) = emitCategory fs c ++ emitCategories fs cs₂ from rfl,
      hemit, hk, emitEntries_append,
      show emitEntries c ((m, Val.num n) :: k₂)
        = (["partB", c, m, "verified"], Val.num n) :: emitEntries c k₂ from rfl]
    simp [List.append_assoc]
  rw [hlist]
  apply getPath_applySets_split
  intro qv hqv
  simp only [List.mem_append] at hqv
  rcases hqv with h | h | h | h | h | h | h | h
  · obtain ⟨s, n', he, hmem⟩ := mem_emitEntries h
    have hs : m ≠ s := fun e => hknd (s, Val.num n') hmem e.symm
    rw [he]
    simp [divergeB, Bool.or_eq_true, bne_iff_ne]
    tauto
  · obtain ⟨c', hc', hmc⟩ := mem_emitCategories h
    obtain ⟨catFs', _, hmc'⟩ := mem_emitCategory hmc
    obtain ⟨s, n', he, _⟩ := mem_emitEntries hmc'
    have hcc : c ≠ c' := fun e => hc2 (e ▸ hc')
    rw [he]
    simp [divergeB, Bool.or_eq_true, bne_iff_ne]
    tauto
  · obtain ⟨n', he, _⟩ := mem_singleMetricField h
    rw [he]
    simp [divergeB, Bool.or_eq_true, bne_iff_ne]
    exact Or.inl (cat_not_special c hc).1
  · obtain ⟨n', he, _⟩ := mem_singleMetricField h
    rw [he]
    simp [divergeB, Bool.or_eq_true, bne_iff_ne]
    exact Or.inl (cat_not_special c hc).2.1
  · obtain ⟨n', he, _⟩ := mem_totalVerifiedField h
    rw [he]
    simp [divergeB, Bool.or_eq_true, bne_iff_ne]
    exact (cat_not_special c hc).2.2
  · obtain ⟨n', he, _⟩ := mem_numFieldAt h
    rw [he]; rfl
  · obtain ⟨n', he, _⟩ := mem_numFieldAt h
    rw [he]; rfl
  · obtain ⟨n', he, _⟩ := mem_numFieldAt h
    rw [he]; rfl

theorem verifyDataFields_eq {vd : Val} {fs : List (String × Val)}
    (hpb : getPath vd ["partB"] = some (.obj fs)) :
    verifyDataFields vd
      = emitCategories fs B_CATEGORIES ++ singleMetricField fs "revenueTraining"
        ++ singleMetricField fs "placement" ++ totalVerifiedField fs
        ++ numFieldAt vd ["partC", "verifiedMarks"]
        ++ numFieldAt vd ["partE", "evaluatorMarks"]
        ++ numFieldAt vd ["summary", "grandTotalVerified"] := by
  unfold verifyDataFields
  rw [hpb]

/-- A numeric `revenueTraining` payload value is written to
`partB.revenueTraining.verified`. -/
theorem verify_stores_revenueTraining (doc vd : Val) {fs : List (String × Val)} {n : Int}
    (hpb : getPath vd ["partB"] = some (.obj fs))
    (hkey : Val.getKey fs "revenueTraining" = some (.num n)) :
    getPath (applySets doc (verifySetFields (some vd)))
      ["partB", "revenueTraining", "verified"] = some (.num n) := by
  rw [show verifySetFields (some vd)
      = (["status"], Val.str "VERIFIED") :: verifyDataFields vd from rfl]
  have hsingle : singleMetricField fs "revenueTraining"
      = [(["partB", "revenueTraining", "verified"], Val.num n)] := by
    unfold singleMetricField; rw [hkey]
  have hlist : ((["status"], Val.str "VERIFIED") :: verifyDataFields vd
        : List (Path × Val)) =
      ((["status"], Val.str "VERIFIED") :: emitCategories fs B_CATEGORIES)
        ++ (["partB", "revenueTraining", "verified"], Val.num n)
          :: (singleMetricField fs "placement" ++ (totalVerifiedField fs
              ++ (numFieldAt vd ["partC", "verifiedMarks"]
              ++ (numFieldAt vd ["partE", "evaluatorMarks"]
              ++ numFieldAt vd ["summary", "grandTotalVerified"])))) := by
    rw [verifyDataFields_eq hpb, hsingle]
    simp [List.append_assoc]
  rw [hlist]
  apply getPath_applySets_split
  intro qv hqv
  simp only [List.mem_append] at hqv
  rcases hqv with h | h | h | h | h
  · obtain ⟨n', he, _⟩ := mem_singleMetricField h
    rw [he]; rfl
  · obtain ⟨n', he, _⟩ := mem_totalVerifiedField h
    rw [he]; rfl
  · obtain ⟨n', he, _⟩ := mem_numFieldAt h
    rw [he]; rfl
  · obtain ⟨n', he, _⟩ := mem_numFieldAt h
    rw [he]; rfl
  · obtain ⟨n', he, _⟩ := mem_numFieldAt h
    rw [he]; rfl

/-- A numeric `placement` payload value is written to
`partB.placement.verified`. -/
theorem verify_stores_placement (doc vd : Val) {fs : List (String × Val)} {n : Int}
    (hpb : getPath vd ["partB"] = some (.obj fs))
    (hkey : Val.getKey fs "placement" = some (.num n)) :
    getPath (applySets doc (verifySetFields (some vd)))
      ["partB", "placement", "verified"] = some (.num n) := by
  rw [show verifySetFields (some vd)
      = (["status"], Val.str "VERIFIED") :: verifyDataFields vd from rfl]
  have hsingle : singleMetricField fs "placement"
      = [(["partB", "placement", "verified"], Val.num n)] := by
    unfold singleMetricField; rw [hkey]
  have hlist : ((["status"], Val.str "VERIFIED") :: verifyDataFields vd
        : List (Path × Val)) =
      ((["status"], Val.str "VERIFIED")
          :: (emitCategories fs B_CATEGORIES ++ singleMetricField fs "revenueTraining"))
        ++ (["partB", "placement", "verified"], Val.num n)
          :: (totalVerifiedField fs
              ++ (numFieldAt vd ["partC", "verifiedMarks"]
              ++ (numFieldAt vd ["partE", "evaluatorMarks"]
              ++ numFieldAt vd ["summary", "grandTotalVerified"]))) := by
    rw [verifyDataFields_eq hpb, hsingle]
    simp [List.append_assoc]
  rw [hlist]
  apply getPath_applySets_split
  intro qv hqv
  simp only [List.mem_append] at hqv
  rcases hqv with h | h | h | h
  · obtain ⟨n', he, _⟩ := mem_totalVerifiedField h
    rw [he]; rfl
  · obtain ⟨n', he, _⟩ := mem_numFieldAt h
    rw [he]; rfl
  · obtain ⟨n', he, _⟩ := mem_numFieldAt h
    rw [he]; rfl
  · obtain ⟨n', he, _⟩ := mem_numFieldAt h
    rw [he]; rfl

/-- A numeric `totalVerified` payload value is written to
`partB.totalVerified`. -/
theorem verify_stores_totalVerified (doc vd : Val) {fs : List (String × Val)} {n : Int}
    (hpb : getPath vd ["partB"] = some (.obj fs))
    (hkey : Val.getKey fs "totalVerified" = some (.num n)) :
    getPath (applySets doc (verifySetFields (some vd)))
      ["partB", "totalVerified"] = some (.num n) := by
  rw [show verifySetFields (some vd)
      = (["status"], Val.str "VERIFIED") :: verifyDataFields vd from rfl]
  have htv : totalVerifiedField fs = [(["partB", "totalVerified"], Val.num n)] := by
    unfold totalVerifiedField; rw [hkey]
  have hlist : ((["status"], Val.str "VERIFIED") :: verifyDataFields vd
        : List (Path × Val)) =
      ((["status"], Val.str "VERIFIED")
          :: (emitCategories fs B_CATEGORIES ++ (singleMetricField fs "revenueTraining"
              ++ singleMetricField fs "placement")))
        ++ (["partB", "totalVerified"], Val.num n)
          :: (numFieldAt vd ["partC", "verifiedMarks"]
              ++ (numFieldAt vd ["partE", "evaluatorMarks"]
              ++ numFieldAt vd ["summary", "grandTotalVerified"])) := by
    rw [verifyDataFields_eq hpb, htv]
    simp [List.append_assoc]
  rw [hlist]
  apply getPath_applySets_split
  intro qv hqv
  simp only [List.mem_append] at hqv
  rcases hqv with h | h | h
  · obtain ⟨n', he, _⟩ := mem_numFieldAt h
    rw [he]; rfl
  · obtain ⟨n', he, _⟩ := mem_numFieldAt h
    rw [he]; rfl
  · obtain ⟨n', he, _⟩ := mem_numFieldAt h
    rw [he]; rfl

/-- A numeric `partC.verifiedMarks` payload value is stored. -/
theorem verify_stores_partC (doc vd : Val) {n : Int}
    (h : getPath vd ["partC", "verifiedMarks"] = some (.num n)) :
    getPath (applySets doc (verifySetFields (some vd)))
      ["partC", "verifiedMarks"] = some (.num n) := by
  rw [show verifySetFields (some vd)
      = (["status"], Val.str "VERIFIED") :: verifyDataFields vd from rfl]
  have hnf : numFieldAt vd ["partC", "verifiedMarks"]
      = [(["partC", "verifiedMarks"], Val.num n)] := by
    unfold numFieldAt; rw [h]
  have hlist : ((["status"], Val.str "VERIFIED") :: verifyDataFields vd
        : List (Path × Val)) =
      ((["status"], Val.str "VERIFIED")
          :: ((match getPath vd ["partB"] with
               | some (.obj fs) =>
                   emitCategories fs B_CATEGORIES
                     ++ singleMetricField fs "revenueTraining"
                     ++ singleMetricField fs "placement"
                     ++ totalVerifiedField fs
               | _ => [])))
        ++ (["partC", "verifiedMarks"], Val.num n)
          :: (numFieldAt vd ["partE", "evaluatorMarks"]
              ++ numFieldAt vd ["summary", "grandTotalVerified"]) := by
    unfold verifyDataFields
    rw [hnf]
    simp [List.append_assoc]
  rw [hlist]
  apply getPath_applySets_split
  intro qv hqv
  simp only [List.mem_append] at hqv
  rcases hqv with h | h
  · obtain ⟨n', he, _⟩ := mem_numFieldAt h
    rw [he]; rfl
  · obtain ⟨n', he, _⟩ := mem_numFieldAt h
    rw [he]; rfl

/-- A numeric `partE.evaluatorMarks` payload value is stored. -/
theorem verify_stores_partE (doc vd : Val) {n : Int}
    (h : getPath vd ["partE", "evaluatorMarks"] = some (.num n)) :
    getPath (applySets doc (verifySetFields (some vd)))
      ["partE", "evaluatorMarks"] = some (.num n) := by
  rw [show verifySetFields (some vd)
      = (["status"], Val.str "VERIFIED") :: verifyDataFields vd from rfl]
  have hnf : numFieldAt vd ["partE", "evaluatorMarks"]
      = [(["partE", "evaluatorMarks"], Val.num n)] := by
    unfold numFieldAt; rw [h]
  have hlist : ((["status"], Val.str "VERIFIED") :: verifyDataFields vd
        : List (Path × Val)) =
      ((["status"], Val.str "VERIFIED")
          :: ((match getPath vd ["partB"] with
               | some (.obj fs) =>
                   emitCategories fs B_CATEGORIES
                     ++ singleMetricField fs "revenueTraining"
                     ++ singleMetricField fs "placement"
                     ++ totalVerifiedField fs
               | _ => []) ++ numFieldAt vd ["partC", "verifiedMarks"]))
        ++ (["partE", "evaluatorMarks"], Val.num n)
          :: numFieldAt vd ["summary", "grandTotalVerified"] := by
    unfold verifyDataFields
    rw [hnf]
    simp [List.append_assoc]
  rw [hlist]
  apply getPath_applySets_split
  intro qv hqv
  obtain ⟨n', he, _⟩ := mem_numFieldAt hqv
  rw [he]; rfl

/-- A numeric `summary.grandTotalVerified` payload value is stored. -/
theorem verify_stores_summary (doc vd : Val) {n : Int}
    (h : getPath vd ["summary", "grandTotalVerified"] = some (.num n)) :
    getPath (applySets doc (verifySetFields (some vd)))
      ["summary", "grandTotalVerified"] = some (.num n) := by
  rw [show verifySetFields (some vd)
      = (["status"], Val.str "VERIFIED") :: verifyDataFields vd from rfl]
  have hnf : numFieldAt vd ["summary", "grandTotalVerified"]
      = [(["summary", "grandTotalVerified"], Val.num n)] := by
    unfold numFieldAt; rw [h]
  have hlist : ((["status"], Val.str "VERIFIED") :: verifyDataFields vd
        : List (Path × Val)) =
      ((["status"], Val.str "VERIFIED")
          :: ((match getPath vd ["partB"] with
               | some (.obj fs) =>
                   emitCategories fs B_CATEGORIES
                     ++ singleMetricField fs "revenueTraining"
                     ++ singleMetricField fs "placement"
                     ++ totalVerifiedField fs
               | _ => []) ++ numFieldAt vd ["partC", "verifiedMarks"]
                  ++ numFieldAt vd ["partE", "evaluatorMarks"]))
        ++ (["summary", "grandTotalVerified"], Val.num n) :: [] := by
    unfold verifyDataFields
    rw [hnf]
    simp [List.append_assoc]
  rw [hlist]
  apply getPath_applySets_split
  intro qv hqv
  simp at hqv

-- ───────── absent payload leaves keep their pre-call stored value ─────────

theorem getPath_partB_key {vd : Val} {fs : List (String × Val)} {k : String}
    (hpb : getPath vd ["partB"] = some (.obj fs)) :
    getPath vd ["partB", k] = Val.getKey fs k := by
  rw [show (["partB", k] : Path) = ["partB"] ++ [k] from rfl, getPath_append, hpb]
  show getPath (Val.obj fs) [k] = _
  rw [getPath_one, objFields_obj]

/-- An iterated-category leaf that is absent from the payload (or not
numeric there) is untouched by the merge. -/
theorem verify_keeps_catLeaf (doc vd : Val) {c m : String}
    (hc : c ∈ B_CATEGORIES) (hwf : payloadCatsWF vd = true)
    (habs : asNum (getPath vd ["partB", c, m]) = none) :
    getPath (applySets doc (verifySetFields (some vd))) ["partB", c, m, "verified"]
      = getPath doc ["partB", c, m, "verified"] := by
  apply getPath_applySets_frame
  intro qv hqv
  rcases List.mem_cons.mp hqv with rfl | hqv
  · rfl
  · replace hqv : qv ∈ verifyDataFields vd := hqv
    unfold verifyDataFields at hqv
    simp only [List.mem_append] at hqv
    rcases hqv with ((h | h) | h) | h
    · split at h
      · next fs hpb =>
          simp only [List.mem_append] at h
          rcases h with ((h | h) | h) | h
          · obtain ⟨c', hc', hmc⟩ := mem_emitCategories h
            obtain ⟨catFs', hcat', hmc'⟩ := mem_emitCategory hmc
            obtain ⟨s, n', he, hmem⟩ := mem_emitEntries hmc'
            by_cases hcc : c' = c
            · subst hcc
              by_cases hsm : s = m
              · subst hsm
                exfalso
                have hnd := payloadWF_nodup hwf hc' (getPath_partB_cat hpb hcat')
                have hkm := getKey_of_mem_nodup hnd hmem
                rw [getPath_partB_cat_leaf hpb hcat' hkm] at habs
                simp [asNum] at habs
              · have hms : ¬ m = s := fun e => hsm e.symm
                rw [he]
                simp [divergeB, Bool.or_eq_true, bne_iff_ne]
                tauto
            · have hcc' : ¬ c = c' := fun e => hcc e.symm
              rw [he]
              simp [divergeB, Bool.or_eq_true, bne_iff_ne]
              tauto
          · obtain ⟨n', he, _⟩ := mem_singleMetricField h
            rw [he]
            simp [divergeB, Bool.or_eq_true, bne_iff_ne]
            exact Or.inl (cat_not_special c hc).1
          · obtain ⟨n', he, _⟩ := mem_singleMetricField h
            rw [he]
            simp [divergeB, Bool.or_eq_true, bne_iff_ne]
            exact Or.inl (cat_not_special c hc).2.1
          · obtain ⟨n', he, _⟩ := mem_totalVerifiedField h
            rw [he]
            simp [divergeB, Bool.or_eq_true, bne_iff_ne]
            exact (cat_not_special c hc).2.2
      · simp at h
    · obtain ⟨n', he, _⟩ := mem_numFieldAt h
      rw [he]; rfl
    · obtain ⟨n', he, _⟩ := mem_numFieldAt h
      rw [he]; rfl
    · obtain ⟨n', he, _⟩ := mem_numFieldAt h
      rw [he]; rfl

/-- A single-metric category leaf (`revenueTraining` / `placement`) absent
from the payload (or not numeric there) is untouched by the merge. -/
theorem verify_keeps_single (doc vd : Val) {k : String}
    (hk : k = "revenueTraining" ∨ k = "placement")
    (habs : asNum (getPath vd ["partB", k]) = none) :
    getPath (applySets doc (verifySetFields (some vd))) ["partB", k, "verified"]
      = getPath doc ["partB", k, "verified"] := by
  have hkB : k ∉ B_CATEGORIES := by rcases hk with rfl | rfl <;> decide
  apply getPath_applySets_frame
  intro qv hqv
  rcases List.mem_cons.mp hqv with rfl | hqv
  · rcases hk with rfl | rfl <;> rfl
  · replace hqv : qv ∈ verifyDataFields vd := hqv
    unfold verifyDataFields at hqv
    simp only [List.mem_append] at hqv
    rcases hqv with ((h | h) | h) | h
    · split at h
      · next fs hpb =>
          simp only [List.mem_append] at h
          rcases h with ((h | h) | h) | h
          · obtain ⟨c', hc', hmc⟩ := mem_emitCategories h
            obtain ⟨catFs', hcat', hmc'⟩ := mem_emitCategory hmc
            obtain ⟨s, n', he, _⟩ := mem_emitEntries hmc'
            rw [he]
            simp [divergeB, Bool.or_eq_true, bne_iff_ne]
            exact Or.inl fun e => hkB (e ▸ hc')
          · obtain ⟨n', he, hkey⟩ := mem_singleMetricField h
            rcases hk with rfl | rfl
            · exfalso
              rw [getPath_partB_key hpb, hkey] at habs
              simp [asNum] at habs
            · rw [he]; rfl
          · obtain ⟨n', he, hkey⟩ := mem_singleMetricField h
            rcases hk with rfl | rfl
            · rw [he]; rfl
            · exfalso
              rw [getPath_partB_key hpb, hkey] at habs
              simp [asNum] at habs
          · obtain ⟨n', he, _⟩ := mem_totalVerifiedField h
            rcases hk with rfl | rfl <;> (rw [he]; rfl)
      · simp at h
    · obtain ⟨n', he, _⟩ := mem_numFieldAt h
      rcases hk with rfl | rfl <;> (rw [he]; rfl)
    · obtain ⟨n', he, _⟩ := mem_numFieldAt h
      rcases hk with rfl | rfl <;> (rw [he]; rfl)
    · obtain ⟨n', he, _⟩ := mem_numFieldAt h
      rcases hk with rfl | rfl <;> (rw [he]; rfl)

/-- A `partB.totalVerified` absent from the payload (or not numeric there)
is untouched by the merge. -/
theorem verify_keeps_totalVerified (doc vd : Val)
    (habs : asNum (getPath vd ["partB", "totalVerified"]) = none) :
    getPath (applySets doc (verifySetFields (some vd))) ["partB", "totalVerified"]
      = getPath doc ["partB", "totalVerified"] := by
  apply getPath_applySets_frame
  intro qv hqv
  rcases List.mem_cons.mp hqv with rfl | hqv
  · rfl
  · replace hqv : qv ∈ verifyDataFields vd := hqv
    unfold verifyDataFields at hqv
    simp only [List.mem_append] at hqv
    rcases hqv with ((h | h) | h) | h
    · split at h
      · next fs hpb =>
          simp only [List.mem_append] at h
          rcases h with ((h | h) | h) | h
          · obtain ⟨c', hc', hmc⟩ := mem_emitCategories h
            obtain ⟨catFs', hcat', hmc'⟩ := mem_emitCategory hmc
            obtain ⟨s, n', he, _⟩ := mem_emitEntries hmc'
            rw [he]
            simp [divergeB, Bool.or_eq_true, bne_iff_ne]
            exact fun e => (cat_not_special c' hc').2.2 e.symm
          · obtain ⟨n', he, _⟩ := mem_singleMetricField h
            rw [he]; rfl
          · obtain ⟨n', he, _⟩ := mem_singleMetricField h
            rw [he]; rfl
          · obtain ⟨n', he, hkey⟩ := mem_totalVerifiedField h
            exfalso
            rw [getPath_partB_key hpb, hkey] at habs
            simp [asNum] at habs
      · simp at h
    · obtain ⟨n', he, _⟩ := mem_numFieldAt h
      rw [he]; rfl
    · obtain ⟨n', he, _⟩ := mem_numFieldAt h
      rw [he]; rfl
    · obtain ⟨n', he, _⟩ := mem_numFieldAt h
      rw [he]; rfl

/-- A `partC.verifiedMarks` / `partE.evaluatorMarks` /
`summary.grandTotalVerified` leaf absent from the payload (or not numeric
there) is untouched by the merge. -/
theorem verify_keeps_numPath (doc vd : Val) {p : Path}
    (hp : p = ["partC", "verifiedMarks"] ∨ p = ["partE", "evaluatorMarks"]
      ∨ p = ["summary", "grandTotalVerified"])
    (habs : asNum (getPath vd p) = none) :
    getPath (applySets doc (verifySetFields (some vd))) p = getPath doc p := by
  apply getPath_applySets_frame
  intro qv hqv
  rcases List.mem_cons.mp hqv with rfl | hqv
  · rcases hp with rfl | rfl | rfl <;> rfl
  · replace hqv : qv ∈ verifyDataFields vd := hqv
    unfold verifyDataFields at hqv
    simp only [List.mem_append] at hqv
    rcases hqv with ((h | h) | h) | h
    · split at h
      · next fs hpb =>
          simp only [List.mem_append] at h
          rcases h with ((h | h) | h) | h
          · obtain ⟨c', hc', hmc⟩ := mem_emitCategories h
            obtain ⟨catFs', hcat', hmc'⟩ := mem_emitCategory hmc
            obtain ⟨s, n', he, _⟩ := mem_emitEntries hmc'
            rcases hp with rfl | rfl | rfl <;> (rw [he]; rfl)
          · obtain ⟨n', he, _⟩ := mem_singleMetricField h
            rcases hp with rfl | rfl | rfl <;> (rw [he]; rfl)
          · obtain ⟨n', he, _⟩ := mem_singleMetricField h
            rcases hp with rfl | rfl | rfl <;> (rw [he]; rfl)
          · obtain ⟨n', he, _⟩ := mem_totalVerifiedField h
            rcases hp with rfl | rfl | rfl <;> (rw [he]; rfl)
      · simp at h
    · obtain ⟨n', he, hgp⟩ := mem_numFieldAt h
      rcases hp with rfl | rfl | rfl
      · exfalso; rw [hgp] at habs; simp [asNum] at habs
      · rw [he]; rfl
      · rw [he]; rfl
    · obtain ⟨n', he, hgp⟩ := mem_numFieldAt h
      rcases hp with rfl | rfl | rfl
      · rw [he]; rfl
      · exfalso; rw [hgp] at habs; simp [asNum] at habs
      · rw [he]; rfl
    · obtain ⟨n', he, hgp⟩ := mem_numFieldAt h
      rcases hp with rfl | rfl | rfl
      · rw [he]; rfl
      · rw [he]; rfl
      · exfalso; rw [hgp] at habs; simp [asNum] at habs

-- ───────────────────────── committee lemmas ─────────────────────────

theorem diverge_head_ne {a b : String} (h : a ≠ b) (p q : Path) :
    divergeB (a :: p) (b :: q) = true := by
  simp [divergeB, Bool.or_eq_true, bne_iff_ne]
  exact Or.inl h

theorem base_head_partB {base : Path} (hb : base ∈ partBMetricBases) :
    ∃ r, base = "partB" :: r := by
  rcases mem_partBMetricBases hb with ⟨c, m, rfl, _, _⟩ | rfl | rfl
  · exact ⟨[c, m], rfl⟩
  · exact ⟨["revenueTraining"], rfl⟩
  · exact ⟨["placement"], rfl⟩

theorem assignedFac_upsert_same (teams : List DTeam) (vid dept : String)
    (fac : List String) :
    assignedFac (upsertTeam teams vid dept fac) vid dept = some fac := by
  induction teams with
  | nil => simp [upsertTeam, assignedFac, teamFor, List.find?, teamMatches]
  | cons t ts ih =>
      cases hm : teamMatches t vid dept with
      | true =>
          have hv : t.verifierId = vid ∧ t.department = dept := by
            simpa [teamMatches] using hm
          simp [upsertTeam, hm, assignedFac, teamFor, List.find?, teamMatches, hv.1, hv.2]
      | false =>
          simpa [upsertTeam, hm, assignedFac, teamFor, List.find?] using ih

theorem assignedFac_upsert_other (teams : List DTeam) {vid' vid : String}
    (dept : String) (fac : List String) (h : vid' ≠ vid) :
    assignedFac (upsertTeam teams vid' dept fac) vid dept
      = assignedFac teams vid dept := by
  induction teams with
  | nil =>
      simp [upsertTeam, assignedFac, teamFor, List.find?, teamMatches,
        fun e : vid' = vid => h e]
  | cons t ts ih =>
      cases hm : teamMatches t vid' dept with
      | true =>
          have hv : t.verifierId = vid' ∧ t.department = dept := by
            simpa [teamMatches] using hm
          have hnot : teamMatches t vid dept = false := by
            simp [teamMatches, hv.1]
            exact fun e => absurd e h
          have hnot' : teamMatches { t with faculties := fac } vid dept = false := by
            simpa [teamMatches] using hnot
          simp [upsertTeam, hm, assignedFac, teamFor, List.find?, hnot, hnot']
      | false =>
          cases ht : teamMatches t vid dept with
          | true => simp [upsertTeam, hm, assignedFac, teamFor, List.find?, ht]
          | false =>
              simpa [upsertTeam, hm, assignedFac, teamFor, List.find?, ht] using ih

theorem assignTeams_preserves (dept : String) (fac : List DUser) (per : Nat) :
    ∀ (vs : List DUser) (teams : List DTeam) (i : Nat) (vid : String),
    vid ∉ vs.map DUser.userId →
    assignedFac (assignTeams dept fac per teams i vs) vid dept
      = assignedFac teams vid dept := by
  intro vs
  induction vs with
  | nil => intro teams i vid _; rfl
  | cons w ws ih =>
      intro teams i vid hnot
      have h1 : w.userId ≠ vid := by
        intro e
        rw [List.map_cons] at hnot
        exact hnot (e ▸ List.mem_cons_self _ _)
      have h2 : vid ∉ ws.map DUser.userId := by
        intro hx
        rw [List.map_cons] at hnot
        exact hnot (List.mem_cons_of_mem _ hx)
      simp only [assignTeams]
      rw [ih _ (i + 1) vid h2, assignedFac_upsert_other _ _ _ h1]

/-- Verifier `j` of the loop (0-based, counting from loop counter `i`)
ends with exactly its roster slice. -/
theorem assignTeams_lookup (dept : String) (fac : List DUser) (per : Nat) :
    ∀ (vs : List DUser) (teams : List DTeam) (i j : Nat) (v : DUser),
    vs.get? j = some v → (vs.map DUser.userId).Nodup →
    assignedFac (assignTeams dept fac per teams i vs) v.userId dept
      = some ((jsSlice fac ((i + j) * per) (min ((i + j) * per + per) fac.length)).map
          DUser.userId) := by
  intro vs
  induction vs with
  | nil => intro teams i j v hj _; simp [List.get?] at hj
  | cons w ws ih =>
      intro teams i j v hj hnd
      have hnd2 : w.userId ∉ ws.map DUser.userId ∧ (ws.map DUser.userId).Nodup := by
        rw [List.map_cons, List.nodup_cons] at hnd
        exact hnd
      simp only [assignTeams]
      cases j with
      | zero =>
          obtain rfl : w = v := by simpa [List.get?] using hj
          rw [assignTeams_preserves dept fac per ws _ (i + 1) w.userId hnd2.1,
            assignedFac_upsert_same]
          simp
      | succ j' =>
          have hj' : ws.get? j' = some v := by simpa [List.get?] using hj
          rw [ih _ (i + 1) j' v hj' hnd2.2]
          have harith : i + 1 + j' = i + (j' + 1) := by omega
          rw [harith]

/-- `slice(start, min(start+per, len))` is just "drop `start`, take `per`". -/
theorem jsSlice_min (l : List α) (s per : Nat) :
    jsSlice l s (min (s + per) l.length) = (l.drop s).take per := by
  unfold jsSlice
  rcases le_total (s + per) l.length with h | h
  · rw [min_eq_left h]
    congr 1
    omega
  · rw [min_eq_right h]
    have hlen : (l.drop s).length = l.length - s := List.length_drop s l
    rw [List.take_of_length_le (by omega), List.take_of_length_le (by omega)]

theorem getKey_filter_not_mem (fs : List (String × Val)) (keys : List String)
    {k : String} (hk : k ∈ keys) :
    Val.getKey (fs.filter (fun kv => !(keys.contains kv.1))) k = none := by
  induction fs with
  | nil => rfl
  | cons hd tl ih =>
      obtain ⟨k', v⟩ := hd
      by_cases hc : k' ∈ keys
      · simpa [List.filter_cons, hc] using ih
      · have hne : k' ≠ k := fun e => hc (e ▸ hk)
        simpa [List.filter_cons, hc, Val.getKey, hne] using ih

theorem getKey_none_of_none {fs : List (String × Val)} {p : String × Val → Bool}
    {k : String} (h : Val.getKey fs k = none) :
    Val.getKey (fs.filter p) k = none := by
  induction fs with
  | nil => rfl
  | cons hd tl ih =>
      obtain ⟨k', v⟩ := hd
      rw [Val.getKey] at h
      by_cases he : k' = k
      · simp [he] at h
      · rw [if_neg he] at h
        by_cases hp : p (k', v) = true <;>
          simp [List.filter_cons, hp, Val.getKey, he, ih h]

/-- If some requested committee id resolves to no user, strictly fewer
users than ids come back (userIds are unique in the collection). -/
theorem findUsers_length_lt {db : List DUser} {ids : List String}
    (hnd : (db.map DUser.userId).Nodup) {x : String} (hx : x ∈ ids)
    (hunk : ∀ u ∈ db, u.userId ≠ x) :
    (findUsersByIds db ids).length < ids.length := by
  classical
  have hsub : (findUsersByIds db ids).Sublist db := List.filter_sublist db
  have hndF : ((findUsersByIds db ids).map DUser.userId).Nodup :=
    List.Nodup.sublist (hsub.map DUser.userId) hnd
  have hsubset : ∀ y ∈ (findUsersByIds db ids).map DUser.userId, y ∈ ids.erase x := by
    intro y hy
    obtain ⟨u, hu, rfl⟩ := List.mem_map.mp hy
    obtain ⟨hudb, hcond⟩ := List.mem_filter.mp hu
    have hin : u.userId ∈ ids := by
      simpa [List.contains_iff_exists_mem_beq] using hcond
    exact (List.mem_erase_of_ne (hunk u hudb)).mpr hin
  have h1 : ((findUsersByIds db ids).map DUser.userId).length ≤ (ids.erase x).length := by
    calc ((findUsersByIds db ids).map DUser.userId).length
        = ((findUsersByIds db ids).map DUser.userId).toFinset.card :=
          (List.toFinset_card_of_nodup hndF).symm
      _ ≤ (ids.erase x).toFinset.card := by
          apply Finset.card_le_card
          intro y hy
          exact List.mem_toFinset.mpr (hsubset y (List.mem_toFinset.mp hy))
      _ ≤ (ids.erase x).length := List.toFinset_card_le _
  have h2 : (ids.erase x).length = ids.length - 1 := List.length_erase_of_mem hx
  have h3 : 0 < ids.length := List.length_pos_of_mem hx
  have h4 : (findUsersByIds db ids).length
      = ((findUsersByIds db ids).map DUser.userId).length := (List.length_map _ _).symm
  omega

theorem nodup_verifier_ids {db : List DUser} (ids : List String)
    (hnd : (db.map DUser.userId).Nodup) :
    ((findUsersByIds db ids).map DUser.userId).Nodup :=
  List.Nodup.sublist ((List.filter_sublist db).map DUser.userId) hnd

-- ═══════════════════════════ CLAIMS ═══════════════════════════

/-- C8: the verification merge is idempotent — for every record and every
verification payload, applying the same payload through `verifyAppraisal`
twice in succession yields the same final record state as applying it
once (the second call finds the status already `VERIFIED`, fails its
precondition and leaves the record untouched; a first failing call leaves
the record untouched as well, so the second fails identically). -/
theorem C8_verifyAppraisal_idempotent (vd? : Option Val) (doc : Val) :
    (verifyAppraisal vd? (verifyAppraisal vd? doc).1).1 = (verifyAppraisal vd? doc).1 := by
  by_cases hs : docStatus doc ≠ some "SUBMITTED"
  · simp [verifyAppraisal, hs]
  · simp only [verifyAppraisal, if_neg hs]
    have h2 : docStatus (applySets doc (verifySetFields vd?)) = some "VERIFIED" :=
      verify_status_after doc vd?
    have hne : docStatus (applySets doc (verifySetFields vd?)) ≠ some "SUBMITTED" := by
      rw [h2]; simp
    simp [hne]

/-- C6: the owner Part D update silently strips the six evaluator-only
leaves from the incoming payload — even when explicitly included — and
persists exactly the remaining fields as the new `partD` subtree; the six
leaves are absent from the stored section afterwards. -/
theorem C6_updatePartD_strips_evaluator_fields (requesterId : String)
    (bodyFs : List (String × Val)) (doc : Val)
    (hs : docStatus doc = some "DRAFT") :
    (updatePartD requesterId requesterId (.obj bodyFs) doc).2 = none ∧
    getPath (updatePartD requesterId requesterId (.obj bodyFs) doc).1 ["partD"]
      = some (.obj (bodyFs.filter (fun kv => !(evaluatorOnlyPartDKeys.contains kv.1)))) ∧
    (∀ k ∈ evaluatorOnlyPartDKeys,
      getPath (updatePartD requesterId requesterId (.obj bodyFs) doc).1 ["partD", k]
        = none) := by
  have h2 : ¬(docStatus doc ≠ some "DRAFT") := by simp [hs]
  refine ⟨?_, ?_, ?_⟩
  · simp [updatePartD, h2]
  · simp [updatePartD, h2, stripPartDEvaluatorFields, getPath_setPath_same]
  · intro k hk
    have hres : (updatePartD requesterId requesterId (.obj bodyFs) doc).1
        = setPath doc ["partD"] (stripPartDEvaluatorFields (.obj bodyFs)) := by
      simp [updatePartD, h2]
    rw [hres, show (["partD", k] : Path) = ["partD"] ++ [k] from rfl, getPath_append,
      getPath_setPath_same]
    show getPath (stripPartDEvaluatorFields (.obj bodyFs)) [k] = none
    rw [getPath_one]
    simpa [stripPartDEvaluatorFields] using getKey_filter_not_mem bodyFs _ hk

/-- C7: submitting a DRAFT record fails with the distinct
declaration-required error whenever `declaration.isAgreed` is false —
regardless of all other fields — leaving the record unchanged; with the
agreement it succeeds, sets the status to SUBMITTED and stamps
`declaration.signatureDate` with the current time. -/
theorem C7_submit_declaration_gate (requesterId : String) (now : Int) (doc : Val)
    (b : Bool) (hs : docStatus doc = some "DRAFT")
    (hagree : getPath doc ["declaration", "isAgreed"] = some (.bool b)) :
    (b = false → submitAppraisal requesterId requesterId now doc
        = (doc, some "You must agree to the declaration before submitting")) ∧
    (b = true →
      (submitAppraisal requesterId requesterId now doc).2 = none ∧
      docStatus (submitAppraisal requesterId requesterId now doc).1 = some "SUBMITTED" ∧
      getPath (submitAppraisal requesterId requesterId now doc).1
        ["declaration", "signatureDate"] = some (.date now)) := by
  have h2 : ¬(docStatus doc ≠ some "DRAFT") := by simp [hs]
  constructor
  · intro hb; subst hb
    simp [submitAppraisal, h2, jsTruthy, hagree]
  · intro hb; subst hb
    have hrun : submitAppraisal requesterId requesterId now doc
        = (setPath (setPath doc ["status"] (.str "SUBMITTED"))
            ["declaration", "signatureDate"] (.date now), none) := by
      simp [submitAppraisal, h2, jsTruthy, hagree]
    refine ⟨by rw [hrun], ?_, ?_⟩
    · rw [hrun]
      show docStatus _ = _
      unfold docStatus
      rw [getPath_setPath_of_diverge (by rfl), getPath_setPath_same]
      rfl
    · rw [hrun]
      exact getPath_setPath_same _ _ _

/-- C10 (implicit): every owner section update writes the whole targeted
section subtree from the (filtered) request payload in one `$set`, so a
previously stored field absent from the payload is not retained: the
stored section equals the payload (after the Part D / Part E evaluator
strip) and lookups of absent keys yield nothing. -/
theorem C10_section_updates_overwrite (requesterId : String) (body doc : Val)
    (hs : docStatus doc = some "DRAFT") :
    (getPath (updatePartA requesterId requesterId body doc).1 ["partA"] = some body ∧
      ∀ k, Val.getKey (objFields body) k = none →
        getPath (updatePartA requesterId requesterId body doc).1 ["partA", k] = none) ∧
    (getPath (updatePartB requesterId requesterId body doc).1 ["partB"] = some body ∧
      ∀ k, Val.getKey (objFields body) k = none →
        getPath (updatePartB requesterId requesterId body doc).1 ["partB", k] = none) ∧
    (getPath (updatePartC requesterId requesterId body doc).1 ["partC"] = some body ∧
      ∀ k, Val.getKey (objFields body) k = none →
        getPath (updatePartC requesterId requesterId body doc).1 ["partC", k] = none) ∧
    (getPath (updatePartD requesterId requesterId body doc).1 ["partD"]
        = some (stripPartDEvaluatorFields body) ∧
      ∀ k, Val.getKey (objFields body) k = none →
        getPath (updatePartD requesterId requesterId body doc).1 ["partD", k] = none) ∧
    (getPath (updatePartE requesterId requesterId body doc).1 ["partE"]
        = some (stripPartEEvaluatorFields body) ∧
      ∀ k, Val.getKey (objFields body) k = none →
        getPath (updatePartE requesterId requesterId body doc).1 ["partE", k] = none) := by
  have h2 : ¬(docStatus doc ≠ some "DRAFT") := by simp [hs]
  refine ⟨⟨?_, ?_⟩, ⟨?_, ?_⟩, ⟨?_, ?_⟩, ⟨?_, ?_⟩, ⟨?_, ?_⟩⟩
  · simp [updatePartA, h2, getPath_setPath_same]
  · intro k hk
    have hrun : (updatePartA requesterId requesterId body doc).1
        = setPath doc ["partA"] body := by simp [updatePartA, h2]
    rw [hrun, show (["partA", k] : Path) = ["partA"] ++ [k] from rfl, getPath_append,
      getPath_setPath_same]
    show getPath body [k] = none
    rw [getPath_one, hk]
  · simp [updatePartB, h2, getPath_setPath_same]
  · intro k hk
    have hrun : (updatePartB requesterId requesterId body doc).1
        = setPath doc ["partB"] body := by simp [updatePartB, h2]
    rw [hrun, show (["partB", k] : Path) = ["partB"] ++ [k] from rfl, getPath_append,
      getPath_setPath_same]
    show getPath body [k] = none
    rw [getPath_one, hk]
  · simp [updatePartC, h2, getPath_setPath_same]
  · intro k hk
    have hrun : (updatePartC requesterId requesterId body doc).1
        = setPath doc ["partC"] body := by simp [updatePartC, h2]
    rw [hrun, show (["partC", k] : Path) = ["partC"] ++ [k] from rfl, getPath_append,
      getPath_setPath_same]
    show getPath body [k] = none
    rw [getPath_one, hk]
  · simp [updatePartD, h2, getPath_setPath_same]
  · intro k hk
    have hrun : (updatePartD requesterId requesterId body doc).1
        = setPath doc ["partD"] (stripPartDEvaluatorFields body) := by
      simp [updatePartD, h2]
    rw [hrun, show (["partD", k] : Path) = ["partD"] ++ [k] from rfl, getPath_append,
      getPath_setPath_same]
    show getPath (stripPartDEvaluatorFields body) [k] = none
    rw [getPath_one]
    simpa [stripPartDEvaluatorFields] using getKey_none_of_none hk
  · simp [updatePartE, h2, getPath_setPath_same]
  · intro k hk
    have hrun : (updatePartE requesterId requesterId body doc).1
        = setPath doc ["partE"] (stripPartEEvaluatorFields body) := by
      simp [updatePartE, h2]
    rw [hrun, show (["partE", k] : Path) = ["partE"] ++ [k] from rfl, getPath_append,
      getPath_setPath_same]
    show getPath (stripPartEEvaluatorFields body) [k] = none
    rw [getPath_one]
    simpa [stripPartEEvaluatorFields] using getKey_none_of_none hk

/-- C3: the evaluator-mark route requires SUBMITTED status and a
non-negative numeric `marks` value — any other status or value is rejected
before any write, leaving the record unchanged — and then writes exactly
the role-determined leaf: dean → `partD.deanMarks` plus
`partD.isMarkDean = true`; hod → `partD.hodMarks` plus
`partD.isMarkHOD = true`; director → only `partD.directorMarks`;
associate_dean → only `partD.adminDeanMarks`; every other role is
rejected.  The frame conjuncts state that nothing else changes. -/
theorem C3_updatePartDEvaluator_routing (role : String) (marks doc : Val) :
    (docStatus doc ≠ some "SUBMITTED" →
      updatePartDEvaluator role marks doc
        = (doc, some "Evaluator marks can only be entered after the faculty has submitted (SUBMITTED status)")) ∧
    (docStatus doc = some "SUBMITTED" → (∀ n : Int, marks = .num n → n < 0) →
      updatePartDEvaluator role marks doc
        = (doc, some "A valid numeric \"marks\" value is required")) ∧
    (∀ n : Int, docStatus doc = some "SUBMITTED" → marks = .num n → 0 ≤ n →
      (role = "dean" →
        (updatePartDEvaluator role marks doc).2 = none ∧
        getPath (updatePartDEvaluator role marks doc).1 ["partD", "deanMarks"]
          = some (.num n) ∧
        getPath (updatePartDEvaluator role marks doc).1 ["partD", "isMarkDean"]
          = some (.bool true) ∧
        (∀ p : Path, divergeB p ["partD", "deanMarks"] = true →
          divergeB p ["partD", "isMarkDean"] = true →
          getPath (updatePartDEvaluator role marks doc).1 p = getPath doc p)) ∧
      (role = "hod" →
        (updatePartDEvaluator role marks doc).2 = none ∧
        getPath (updatePartDEvaluator role marks doc).1 ["partD", "hodMarks"]
          = some (.num n) ∧
        getPath (updatePartDEvaluator role marks doc).1 ["partD", "isMarkHOD"]
          = some (.bool true) ∧
        (∀ p : Path, divergeB p ["partD", "hodMarks"] = true →
          divergeB p ["partD", "isMarkHOD"] = true →
          getPath (updatePartDEvaluator role marks doc).1 p = getPath doc p)) ∧
      (role = "director" →
        (updatePartDEvaluator role marks doc).2 = none ∧
        getPath (updatePartDEvaluator role marks doc).1 ["partD", "directorMarks"]
          = some (.num n) ∧
        (∀ p : Path, divergeB p ["partD", "directorMarks"] = true →
          getPath (updatePartDEvaluator role marks doc).1 p = getPath doc p)) ∧
      (role = "associate_dean" →
        (updatePartDEvaluator role marks doc).2 = none ∧
        getPath (updatePartDEvaluator role marks doc).1 ["partD", "adminDeanMarks"]
          = some (.num n) ∧
        (∀ p : Path, divergeB p ["partD", "adminDeanMarks"] = true →
          getPath (updatePartDEvaluator role marks doc).1 p = getPath doc p)) ∧
      (role ≠ "dean" → role ≠ "hod" → role ≠ "director" → role ≠ "associate_dean" →
        updatePartDEvaluator role marks doc
          = (doc, some "Your role does not permit entering evaluator marks"))) := by
  refine ⟨?_, ?_, ?_⟩
  · intro h
    simp [updatePartDEvaluator, h]
  · intro hs hneg
    have hs' : ¬(docStatus doc ≠ some "SUBMITTED") := by simp [hs]
    cases marks with
    | num n =>
        have hn := hneg n rfl
        simp [updatePartDEvaluator, hs', hn]
    | str s => simp [updatePartDEvaluator, hs']
    | bool b => simp [updatePartDEvaluator, hs']
    | date t => simp [updatePartDEvaluator, hs']
    | null => simp [updatePartDEvaluator, hs']
    | obj fs => simp [updatePartDEvaluator, hs']
  · intro n hs hm hnn
    subst hm
    have hs' : ¬(docStatus doc ≠ some "SUBMITTED") := by simp [hs]
    have hnlt : ¬(n < 0) := by omega
    refine ⟨?_, ?_, ?_, ?_, ?_⟩
    · intro hr; subst hr
      have hrun : updatePartDEvaluator "dean" (.num n) doc
          = (applySets doc [(["partD", "deanMarks"], .num n),
              (["partD", "isMarkDean"], .bool true)], none) := by
        simp [updatePartDEvaluator, hs', hnlt]
      refine ⟨by rw [hrun], ?_, ?_, ?_⟩
      · rw [hrun]
        show getPath (setPath (setPath doc ["partD", "deanMarks"] (.num n))
          ["partD", "isMarkDean"] (.bool true)) ["partD", "deanMarks"] = _
        rw [getPath_setPath_of_diverge (by rfl), getPath_setPath_same]
      · rw [hrun]
        show getPath (setPath (setPath doc ["partD", "deanMarks"] (.num n))
          ["partD", "isMarkDean"] (.bool true)) ["partD", "isMarkDean"] = _
        rw [getPath_setPath_same]
      · intro p h1 h2
        rw [hrun]
        show getPath (setPath (setPath doc ["partD", "deanMarks"] (.num n))
          ["partD", "isMarkDean"] (.bool true)) p = _
        rw [getPath_setPath_of_diverge h2, getPath_setPath_of_diverge h1]
    · intro hr; subst hr
      have hrun : updatePartDEvaluator "hod" (.num n) doc
          = (applySets doc [(["partD", "hodMarks"], .num n),
              (["partD", "isMarkHOD"], .bool true)], none) := by
        simp [updatePartDEvaluator, hs', hnlt]
      refine ⟨by rw [hrun], ?_, ?_, ?_⟩
      · rw [hrun]
        show getPath (setPath (setPath doc ["partD", "hodMarks"] (.num n))
          ["partD", "isMarkHOD"] (.bool true)) ["partD", "hodMarks"] = _
        rw [getPath_setPath_of_diverge (by rfl), getPath_setPath_same]
      · rw [hrun]
        show getPath (setPath (setPath doc ["partD", "hodMarks"] (.num n))
          ["partD", "isMarkHOD"] (.bool true)) ["partD", "isMarkHOD"] = _
        rw [getPath_setPath_same]
      · intro p h1 h2
        rw [hrun]
        show getPath (setPath (setPath doc ["partD", "hodMarks"] (.num n))
          ["partD", "isMarkHOD"] (.bool true)) p = _
        rw [getPath_setPath_of_diverge h2, getPath_setPath_of_diverge h1]
    · intro hr; subst hr
      have hrun : updatePartDEvaluator "director" (.num n) doc
          = (setPath doc ["partD", "directorMarks"] (.num n), none) := by
        simp [updatePartDEvaluator, hs', hnlt]
      exact ⟨by rw [hrun], by rw [hrun]; exact getPath_setPath_same _ _ _,
        fun p h1 => by rw [hrun]; exact getPath_setPath_of_diverge h1 _ _⟩
    · intro hr; subst hr
      have hrun : updatePartDEvaluator "associate_dean" (.num n) doc
          = (setPath doc ["partD", "adminDeanMarks"] (.num n), none) := by
        simp [updatePartDEvaluator, hs', hnlt]
      exact ⟨by rw [hrun], by rw [hrun]; exact getPath_setPath_same _ _ _,
        fun p h1 => by rw [hrun]; exact getPath_setPath_of_diverge h1 _ _⟩
    · intro h1 h2 h3 h4
      simp [updatePartDEvaluator, hs', hnlt, h1, h2, h3, h4]

/-- C1 (amended): the lifecycle operations respect the four-state machine:
submit succeeds only from DRAFT, verify only from SUBMITTED, approve only
from VERIFIED, delete only from DRAFT; a call from any other status fails
leaving the record (including its status) unchanged; the submit, verify
and approve precondition errors name the actual current status, while the
delete error is the fixed message "Only DRAFT appraisals can be deleted",
which does not name it. -/
theorem C1_lifecycle_state_machine (requesterId : String) (now : Int)
    (vd? : Option Val) (gtv : Option Val) (doc : Val) (st : String)
    (hst : docStatus doc = some st) (hstv : st ∈ APPRAISAL_STATUS) :
    (st ≠ "DRAFT" → ∃ msg, submitAppraisal requesterId requesterId now doc
        = (doc, some msg) ∧ strContains msg st = true) ∧
    ((submitAppraisal requesterId requesterId now doc).2 = none → st = "DRAFT") ∧
    (st ≠ "SUBMITTED" → ∃ msg, verifyAppraisal vd? doc
        = (doc, some msg) ∧ strContains msg st = true) ∧
    ((verifyAppraisal vd? doc).2 = none → st = "SUBMITTED") ∧
    (st ≠ "VERIFIED" → ∃ msg, approveAppraisal gtv doc
        = (doc, some msg) ∧ strContains msg st = true) ∧
    ((approveAppraisal gtv doc).2 = none → st = "VERIFIED") ∧
    (st ≠ "DRAFT" → deleteAppraisal requesterId requesterId doc
        = (some doc, some "Only DRAFT appraisals can be deleted")) ∧
    ((deleteAppraisal requesterId requesterId doc).2 = none → st = "DRAFT") := by
  have htext : statusText doc = st := by simp [statusText, hst]
  have hsubmitFail : st ≠ "DRAFT" → ∃ msg, submitAppraisal requesterId requesterId now doc
      = (doc, some msg) ∧ strContains msg st = true := by
    intro hne
    have hne' : docStatus doc ≠ some "DRAFT" := by
      rw [hst]; exact fun e => hne (Option.some.inj e)
    refine ⟨"Cannot submit: appraisal is already in " ++ st ++ " status", ?_, ?_⟩
    · simp [submitAppraisal, hne', htext]
    · simp [APPRAISAL_STATUS] at hstv
      rcases hstv with rfl | rfl | rfl | rfl
      · exact absurd rfl hne
      · decide
      · decide
      · decide
  have hverifyFail : st ≠ "SUBMITTED" → ∃ msg, verifyAppraisal vd? doc
      = (doc, some msg) ∧ strContains msg st = true := by
    intro hne
    have hne' : docStatus doc ≠ some "SUBMITTED" := by
      rw [hst]; exact fun e => hne (Option.some.inj e)
    refine ⟨"Cannot verify: appraisal must be SUBMITTED (current: " ++ st ++ ")", ?_, ?_⟩
    · simp [verifyAppraisal, hne', htext]
    · simp [APPRAISAL_STATUS] at hstv
      rcases hstv with rfl | rfl | rfl | rfl
      · decide
      · exact absurd rfl hne
      · decide
      · decide
  have happroveFail : st ≠ "VERIFIED" → ∃ msg, approveAppraisal gtv doc
      = (doc, some msg) ∧ strContains msg st = true := by
    intro hne
    have hne' : docStatus doc ≠ some "VERIFIED" := by
      rw [hst]; exact fun e => hne (Option.some.inj e)
    refine ⟨"Cannot approve: appraisal must be VERIFIED (current: " ++ st ++ ")", ?_, ?_⟩
    · simp [approveAppraisal, hne', htext]
    · simp [APPRAISAL_STATUS] at hstv
      rcases hstv with rfl | rfl | rfl | rfl
      · decide
      · decide
      · exact absurd rfl hne
      · decide
  have hdeleteFail : st ≠ "DRAFT" → deleteAppraisal requesterId requesterId doc
      = (some doc, some "Only DRAFT appraisals can be deleted") := by
    intro hne
    have hne' : docStatus doc ≠ some "DRAFT" := by
      rw [hst]; exact fun e => hne (Option.some.inj e)
    simp [deleteAppraisal, hne']
  refine ⟨hsubmitFail, ?_, hverifyFail, ?_, happroveFail, ?_, hdeleteFail, ?_⟩
  · intro hok
    by_contra hne
    obtain ⟨msg, he, _⟩ := hsubmitFail hne
    rw [he] at hok
    simp at hok
  · intro hok
    by_contra hne
    obtain ⟨msg, he, _⟩ := hverifyFail hne
    rw [he] at hok
    simp at hok
  · intro hok
    by_contra hne
    obtain ⟨msg, he, _⟩ := happroveFail hne
    rw [he] at hok
    simp at hok
  · intro hok
    by_contra hne
    have he := hdeleteFail hne
    rw [he] at hok
    simp at hok

/-- C1 counterexample to the claim as stated: on a SUBMITTED record,
`deleteAppraisal` fails as required, but its precondition error is the
fixed message "Only DRAFT appraisals can be deleted", which does not name
the actual current status SUBMITTED. -/
theorem C1_delete_error_counterexample :
    docStatus (sampleDoc "SUBMITTED") = some "SUBMITTED" ∧
    (deleteAppraisal "u1" "u1" (sampleDoc "SUBMITTED")).2
      = some "Only DRAFT appraisals can be deleted" ∧
    (deleteAppraisal "u1" "u1" (sampleDoc "SUBMITTED")).1 = some (sampleDoc "SUBMITTED") ∧
    strContains "Only DRAFT appraisals can be deleted" "SUBMITTED" = false := by
  refine ⟨rfl, rfl, rfl, by decide⟩

/-- C2: on a SUBMITTED record, the verification merge (1) leaves every
`count` / `amount` / `claimed` / `proof` leaf of every schema metric
byte-identical, (2) stores every numeric verified-leaf present in the
payload (metric leaves, the two single-metric categories, `totalVerified`,
`verifiedMarks`, `evaluatorMarks`, `grandTotalVerified`), and (3) keeps
the pre-call value of every verified-leaf absent from the payload — a
payload leaf that is not a number counts as absent, so it is skipped
individually without aborting the rest of the merge. -/
theorem C2_verify_merge_frame (doc vd : Val)
    (hs : docStatus doc = some "SUBMITTED") (hwf : payloadCatsWF vd = true) :
    (verifyAppraisal (some vd) doc).2 = none ∧
    (∀ base ∈ partBMetricBases, ∀ leaf ∈ facultyLeaves,
      getPath (verifyAppraisal (some vd) doc).1 (base ++ [leaf])
        = getPath doc (base ++ [leaf])) ∧
    (∀ c ∈ B_CATEGORIES, ∀ m, ∀ n : Int,
      asNum (getPath vd ["partB", c, m]) = some n →
        getPath (verifyAppraisal (some vd) doc).1 ["partB", c, m, "verified"]
          = some (.num n)) ∧
    (∀ c ∈ B_CATEGORIES, ∀ m,
      asNum (getPath vd ["partB", c, m]) = none →
        getPath (verifyAppraisal (some vd) doc).1 ["partB", c, m, "verified"]
          = getPath doc ["partB", c, m, "verified"]) ∧
    (∀ k, (k = "revenueTraining" ∨ k = "placement") →
      (∀ n : Int, asNum (getPath vd ["partB", k]) = some n →
        getPath (verifyAppraisal (some vd) doc).1 ["partB", k, "verified"]
          = some (.num n)) ∧
      (asNum (getPath vd ["partB", k]) = none →
        getPath (verifyAppraisal (some vd) doc).1 ["partB", k, "verified"]
          = getPath doc ["partB", k, "verified"])) ∧
    (∀ p : Path, (p = ["partB", "totalVerified"] ∨ p = ["partC", "verifiedMarks"]
        ∨ p = ["partE", "evaluatorMarks"] ∨ p = ["summary", "grandTotalVerified"]) →
      (∀ n : Int, asNum (getPath vd p) = some n →
        getPath (verifyAppraisal (some vd) doc).1 p = some (.num n)) ∧
      (asNum (getPath vd p) = none →
        getPath (verifyAppraisal (some vd) doc).1 p = getPath doc p)) := by
  have hs' : ¬(docStatus doc ≠ some "SUBMITTED") := by simp [hs]
  have hrun : (verifyAppraisal (some vd) doc).1
      = applySets doc (verifySetFields (some vd)) := by
    simp [verifyAppraisal, hs']
  refine ⟨by simp [verifyAppraisal, hs'], ?_, ?_, ?_, ?_, ?_⟩
  · intro base hb leaf hl
    rw [hrun]
    exact verify_frame_facultyLeaf doc (some vd) hb hl
  · intro c hc m n hnum
    rw [hrun]
    obtain ⟨fs, catFs, hpb, hcat, hm⟩ := getPath_three_decomp (asNum_eq_some.mp hnum)
    exact verify_stores_catLeaf doc vd hc hpb hcat
      (payloadWF_nodup hwf hc (getPath_partB_cat hpb hcat)) hm
  · intro c hc m habs
    rw [hrun]
    exact verify_keeps_catLeaf doc vd hc hwf habs
  · intro k hk
    constructor
    · intro n hnum
      rw [hrun]
      obtain ⟨fs, hpb, hkey⟩ := getPath_two_decomp (asNum_eq_some.mp hnum)
      rcases hk with rfl | rfl
      · exact verify_stores_revenueTraining doc vd hpb hkey
      · exact verify_stores_placement doc vd hpb hkey
    · intro habs
      rw [hrun]
      exact verify_keeps_single doc vd hk habs
  · intro p hp
    constructor
    · intro n hnum
      rw [hrun]
      rcases hp with rfl | rfl | rfl | rfl
      · obtain ⟨fs, hpb, hkey⟩ := getPath_two_decomp (asNum_eq_some.mp hnum)
        exact verify_stores_totalVerified doc vd hpb hkey
      · exact verify_stores_partC doc vd (asNum_eq_some.mp hnum)
      · exact verify_stores_partE doc vd (asNum_eq_some.mp hnum)
      · exact verify_stores_summary doc vd (asNum_eq_some.mp hnum)
    · intro habs
      rw [hrun]
      rcases hp with rfl | rfl | rfl | rfl
      · exact verify_keeps_totalVerified doc vd habs
      · exact verify_keeps_numPath doc vd (Or.inl rfl) habs
      · exact verify_keeps_numPath doc vd (Or.inr (Or.inl rfl)) habs
      · exact verify_keeps_numPath doc vd (Or.inr (Or.inr rfl)) habs

/-- C2 witness: concrete instantiation — the numeric `papers.sci` leaf of
the payload is stored as its `verified`, the non-numeric `papers.note`
leaf is skipped, and `claimed` is untouched. -/
theorem C2_verify_merge_frame_witness :
    docStatus (sampleDoc "SUBMITTED") = some "SUBMITTED" ∧
    payloadCatsWF sampleVD = true ∧
    getPath (verifyAppraisal (some sampleVD) (sampleDoc "SUBMITTED")).1
        ["partB", "papers", "sci", "claimed"]
      = getPath (sampleDoc "SUBMITTED") ["partB", "papers", "sci", "claimed"] ∧
    getPath (verifyAppraisal (some sampleVD) (sampleDoc "SUBMITTED")).1
        ["partB", "papers", "sci", "verified"] = some (.num 9) ∧
    getPath (verifyAppraisal (some sampleVD) (sampleDoc "SUBMITTED")).1
        ["partB", "papers", "note", "verified"]
      = getPath (sampleDoc "SUBMITTED") ["partB", "papers", "note", "verified"] := by
  have h := C2_verify_merge_frame (sampleDoc "SUBMITTED") sampleVD rfl rfl
  refine ⟨rfl, rfl, ?_, ?_, ?_⟩
  · exact h.2.1 ["partB", "papers", "sci"] (by decide) "claimed" (by decide)
  · exact h.2.2.1 "papers" (by decide) "sci" 9 rfl
  · exact h.2.2.2.1 "papers" (by decide) "note" rfl

/-- C4 (amended): when the committee request validates, the rebuild
partitions the roster with `perVerifier = ceil(rosterSize/verifierCount)`
and assigns to the i-th verifier — in the order the user store returns
them (collection order of the `$in` lookup), which need not be the order
of the configuration request — the contiguous roster slice
`[i*perVerifier, min((i+1)*perVerifier, rosterSize))`; every verifier's
share (in particular the final one's) is never larger than `perVerifier`.
For 2 verifiers [A, B] stored in that order over the 5-faculty roster
[f1..f5], A receives [f1, f2, f3] and B receives [f4, f5]. -/
theorem C4_committee_partition (db : List DUser) (teams : List DTeam)
    (department : String) (ids deleted : List String) (fac : List DUser) (per : Nat)
    (hdept : department ≠ "")
    (hnodupDb : (db.map DUser.userId).Nodup)
    (hlen : (findUsersByIds db ids).length = ids.length)
    (hsd : (findUsersByIds db ids).filter (fun v => v.department = department) = [])
    (hfac : fac = db.filter (fun u => u.department = department && u.role = "faculty"))
    (hper : per = jsCeilDiv fac.length (findUsersByIds db ids).length) :
    (createVerificationCommitteeByDept db teams department ids deleted).2 = none ∧
    (∀ j v, (findUsersByIds db ids).get? j = some v →
      assignedFac (createVerificationCommitteeByDept db teams department ids deleted).1
          v.userId department
        = some (((fac.drop (j * per)).take per).map DUser.userId)) ∧
    (∀ j v, (findUsersByIds db ids).get? j = some v →
      ∀ l, assignedFac (createVerificationCommitteeByDept db teams department ids deleted).1
          v.userId department = some l → l.length ≤ per) ∧
    assignedFac (createVerificationCommitteeByDept sampleUserDb [] "cs" ["A", "B"] []).1
        "A" "cs" = some ["f1", "f2", "f3"] ∧
    assignedFac (createVerificationCommitteeByDept sampleUserDb [] "cs" ["A", "B"] []).1
        "B" "cs" = some ["f4", "f5"] := by
  subst hfac hper
  have hrun : createVerificationCommitteeByDept db teams department ids deleted
      = (assignTeams department
          (db.filter (fun u => u.department = department && u.role = "faculty"))
          (jsCeilDiv (db.filter (fun u => u.department = department && u.role = "faculty")).length
            (findUsersByIds db ids).length)
          ((teams.filter (fun t => !(t.department = department &&
              ((findUsersByIds db deleted).map (·.userId)).contains t.verifierId))).filter
            (fun t => !(t.department = department &&
              !((findUsersByIds db ids).map (·.userId)).contains t.verifierId)))
          0 (findUsersByIds db ids), none) := by
    simp [createVerificationCommitteeByDept, hdept, hlen, hsd]
  have hlookup : ∀ j v, (findUsersByIds db ids).get? j = some v →
      assignedFac (createVerificationCommitteeByDept db teams department ids deleted).1
          v.userId department
        = some ((((db.filter (fun u => u.department = department && u.role = "faculty")).drop
            (j * jsCeilDiv (db.filter (fun u => u.department = department && u.role = "faculty")).length
              (findUsersByIds db ids).length)).take
            (jsCeilDiv (db.filter (fun u => u.department = department && u.role = "faculty")).length
              (findUsersByIds db ids).length)).map DUser.userId) := by
    intro j v hj
    rw [hrun]
    have h := assignTeams_lookup department
      (db.filter (fun u => u.department = department && u.role = "faculty"))
      (jsCeilDiv (db.filter (fun u => u.department = department && u.role = "faculty")).length
        (findUsersByIds db ids).length)
      (findUsersByIds db ids)
      ((teams.filter (fun t => !(t.department = department &&
          ((findUsersByIds db deleted).map (·.userId)).contains t.verifierId))).filter
        (fun t => !(t.department = department &&
          !((findUsersByIds db ids).map (·.userId)).contains t.verifierId)))
      0 j v hj (nodup_verifier_ids ids hnodupDb)
    rw [h]
    rw [show ∀ j' : Nat, 0 + j' = j' from fun _ => by omega]
    rw [jsSlice_min]
  refine ⟨by rw [hrun], hlookup, ?_, by decide, by decide⟩
  intro j v hj l hl
  rw [hlookup j v hj] at hl
  obtain rfl := Option.some.inj hl.symm
  rw [List.length_map, List.length_take]
  omega

/-- C4 counterexample to the claim as stated: with the same two verifiers
requested as [A, B] but stored in collection order [B, A], the `$in`
lookup returns [B, A], so A — the first verifier of the configuration
request — receives the second slice [f4, f5] instead of the claimed
[f1, f2, f3]. -/
theorem C4_request_order_counterexample :
    assignedFac (createVerificationCommitteeByDept sampleUserDbSwapped [] "cs"
        ["A", "B"] []).1 "A" "cs" = some ["f4", "f5"] ∧
    (some ["f4", "f5"] : Option (List String)) ≠ some ["f1", "f2", "f3"] := by
  exact ⟨by decide, by decide⟩

/-- C4 witness: the amended theorem instantiated on the concrete store
[A, B, f1..f5]. -/
theorem C4_committee_partition_witness :
    (findUsersByIds sampleUserDb ["A", "B"]).length = (["A", "B"] : List String).length ∧
    assignedFac (createVerificationCommitteeByDept sampleUserDb [] "cs"
        ["A", "B"] []).1 "A" "cs" = some ["f1", "f2", "f3"] := by
  have h := C4_committee_partition sampleUserDb [] "cs" ["A", "B"] [] _ _
    (by decide) (by decide) (by decide) (by decide) rfl rfl
  exact ⟨by decide, h.2.2.2.1⟩

/-- C9: the committee rebuild validates before persisting anything — an
unresolvable committee member id or a same-department verifier rejects the
whole operation with the team collection unchanged — and an empty faculty
roster succeeds, storing an empty assignment set for every verifier. -/
theorem C9_committee_guards (db : List DUser) (teams : List DTeam)
    (department : String) (ids deleted : List String)
    (hdept : department ≠ "")
    (hnodupDb : (db.map DUser.userId).Nodup) :
    ((∃ x ∈ ids, ∀ u ∈ db, u.userId ≠ x) →
      createVerificationCommitteeByDept db teams department ids deleted
        = (teams, some "One or more committee IDs are invalid")) ∧
    ((findUsersByIds db ids).length = ids.length →
      (∃ v ∈ findUsersByIds db ids, v.department = department) →
      createVerificationCommitteeByDept db teams department ids deleted
        = (teams, some ("Verifiers cannot be from the same department ("
            ++ department ++ ")"))) ∧
    ((findUsersByIds db ids).length = ids.length →
      (findUsersByIds db ids).filter (fun v => v.department = department) = [] →
      db.filter (fun u => u.department = department && u.role = "faculty") = [] →
      (createVerificationCommitteeByDept db teams department ids deleted).2 = none ∧
      (∀ j v, (findUsersByIds db ids).get? j = some v →
        assignedFac (createVerificationCommitteeByDept db teams department ids deleted).1
          v.userId department = some [])) := by
  refine ⟨?_, ?_, ?_⟩
  · rintro ⟨x, hx, hunk⟩
    have hlt := findUsers_length_lt hnodupDb hx hunk
    have hne : (findUsersByIds db ids).length ≠ ids.length := by omega
    simp [createVerificationCommitteeByDept, hdept, hne]
  · intro hlen hsame
    obtain ⟨v, hv, hvd⟩ := hsame
    have hne : (findUsersByIds db ids).filter
        (fun v => v.department = department) ≠ [] := by
      intro he
      have : v ∈ (findUsersByIds db ids).filter
          (fun v => v.department = department) :=
        List.mem_filter.mpr ⟨hv, by simp [hvd]⟩
      rw [he] at this
      simp at this
    have hpos : 0 < ((findUsersByIds db ids).filter
        (fun v => v.department = department)).length :=
      List.length_pos.mpr hne
    simp [createVerificationCommitteeByDept, hdept, hlen, hpos]
  · intro hlen hsd hroster
    have h := C4_committee_partition db teams department ids deleted _ _
      hdept hnodupDb hlen hsd rfl rfl
    refine ⟨h.1, ?_⟩
    intro j v hj
    have h2 := h.2.1 j v hj
    rw [hroster] at h2
    simpa using h2

/-- C9 witness: concrete instantiation — an unknown id "X" rejects the
rebuild leaving a pre-existing team row untouched, and a rebuild over the
`ash` department (whose roster is empty in the sample store) succeeds with
an empty assignment for its verifier. -/
theorem C9_committee_guards_witness :
    createVerificationCommitteeByDept sampleUserDb [⟨"A", "cs", ["f1"]⟩] "cs"
        ["A", "X"] [] = ([⟨"A", "cs", ["f1"]⟩], some "One or more committee IDs are invalid") ∧
    (createVerificationCommitteeByDept sampleUserDb [] "ash" ["A"] []).2 = none ∧
    assignedFac (createVerificationCommitteeByDept sampleUserDb [] "ash" ["A"] []).1
      "A" "ash" = some [] := by
  have h1 := (C9_committee_guards sampleUserDb [⟨"A", "cs", ["f1"]⟩] "cs" ["A", "X"] []
    (by decide) (by decide)).1 ⟨"X", by decide, by decide⟩
  have h2 := (C9_committee_guards sampleUserDb [] "ash" ["A"] []
    (by decide) (by decide)).2.2 (by decide) (by decide) (by decide)
  exact ⟨h1, h2.1, by simpa using h2.2 0 (mkUser "A" "it" "dean") (by decide)⟩

theorem updatePartDEvaluator_partB_frame (role : String) (marks doc : Val) {p : Path}
    (hp : ∃ r, p = "partB" :: r) :
    getPath (updatePartDEvaluator role marks doc).1 p = getPath doc p := by
  obtain ⟨r, rfl⟩ := hp
  unfold updatePartDEvaluator
  by_cases hsub : docStatus doc ≠ some "SUBMITTED"
  · simp [hsub]
  · simp only [if_neg hsub]
    cases marks with
    | num m =>
        by_cases hm : m < 0
        · simp [hm]
        · simp only [if_neg hm]
          by_cases h1 : role = "dean"
          · simp only [if_pos h1]
            apply getPath_applySets_frame
            intro qv hqv
            rcases List.mem_cons.mp hqv with rfl | hqv
            · exact diverge_head_ne (by decide) _ _
            · rcases List.mem_cons.mp hqv with rfl | hqv
              · exact diverge_head_ne (by decide) _ _
              · simp at hqv
          · simp only [if_neg h1]
            by_cases h2 : role = "hod"
            · simp only [if_pos h2]
              apply getPath_applySets_frame
              intro qv hqv
              rcases List.mem_cons.mp hqv with rfl | hqv
              · exact diverge_head_ne (by decide) _ _
              · rcases List.mem_cons.mp hqv with rfl | hqv
                · exact diverge_head_ne (by decide) _ _
                · simp at hqv
            · simp only [if_neg h2]
              by_cases h3 : role = "director"
              · simp only [if_pos h3]
                exact getPath_setPath_of_diverge (diverge_head_ne (by decide) _ _) _ _
              · simp only [if_neg h3]
                by_cases h4 : role = "associate_dean"
                · simp only [if_pos h4]
                  exact getPath_setPath_of_diverge (diverge_head_ne (by decide) _ _) _ _
                · simp only [if_neg h4]
    | str s => rfl
    | bool b => rfl
    | date t => rfl
    | null => rfl
    | obj fs => rfl

theorem approveAppraisal_partB_frame (gtv : Option Val) (doc : Val) {p : Path}
    (hp : ∃ r, p = "partB" :: r) :
    getPath (approveAppraisal gtv doc).1 p = getPath doc p := by
  obtain ⟨r, rfl⟩ := hp
  unfold approveAppraisal
  by_cases h : docStatus doc ≠ some "VERIFIED"
  · simp [h]
  · simp only [if_neg h]
    apply getPath_applySets_frame
    intro qv hqv
    rcases List.mem_cons.mp hqv with rfl | hqv
    · exact diverge_head_ne (by decide) _ _
    · have hq : qv.1 = ["summary", "grandTotalVerified"] := by
        cases gtv with
        | none => simp at hqv
        | some v =>
            cases v with
            | num n => rcases List.mem_singleton.mp hqv with rfl; rfl
            | str s => simp at hqv
            | bool b => simp at hqv
            | date t => simp at hqv
            | null => simp at hqv
            | obj fs => simp at hqv
      rw [hq]
      exact diverge_head_ne (by decide) _ _

/-- C5 (amended): once the status is SUBMITTED, VERIFIED or APPROVED, no
part-scoped or lifecycle operation of the current handler generation can
change a `count` / `amount` / `claimed` / `proof` leaf of any metric — the
DRAFT-guarded owner updates reject outright, the evaluator-mark route and
approve write only Part D / summary / status leaves, and the verification
merge writes only verified leaves.  The legacy whole-record
`updateAppraisal`, however, rejects only APPROVED records (it leaves those
unchanged) and can overwrite these leaves on SUBMITTED or VERIFIED
records, which refutes the claim as stated. -/
theorem C5_locked_leaves_immutable (requesterId targetId : String) (now : Int)
    (body isAgreedVal marks : Val) (role : String)
    (vd? : Option Val) (gtv : Option Val) (doc : Val) (st : String)
    (hst : docStatus doc = some st)
    (hlocked : st = "SUBMITTED" ∨ st = "VERIFIED" ∨ st = "APPROVED") :
    (∀ base ∈ partBMetricBases, ∀ leaf ∈ facultyLeaves,
      getPath (updatePartA requesterId targetId body doc).1 (base ++ [leaf])
          = getPath doc (base ++ [leaf]) ∧
      getPath (updatePartB requesterId targetId body doc).1 (base ++ [leaf])
          = getPath doc (base ++ [leaf]) ∧
      getPath (updatePartC requesterId targetId body doc).1 (base ++ [leaf])
          = getPath doc (base ++ [leaf]) ∧
      getPath (updatePartD requesterId targetId body doc).1 (base ++ [leaf])
          = getPath doc (base ++ [leaf]) ∧
      getPath (updatePartE requesterId targetId body doc).1 (base ++ [leaf])
          = getPath doc (base ++ [leaf]) ∧
      getPath (updateDeclaration requesterId targetId isAgreedVal doc).1 (base ++ [leaf])
          = getPath doc (base ++ [leaf]) ∧
      getPath (updatePartDEvaluator role marks doc).1 (base ++ [leaf])
          = getPath doc (base ++ [leaf]) ∧
      getPath (submitAppraisal requesterId targetId now doc).1 (base ++ [leaf])
          = getPath doc (base ++ [leaf]) ∧
      getPath (verifyAppraisal vd? doc).1 (base ++ [leaf])
          = getPath doc (base ++ [leaf]) ∧
      getPath (approveAppraisal gtv doc).1 (base ++ [leaf])
          = getPath doc (base ++ [leaf])) ∧
    (st = "APPROVED" → (updateAppraisal targetId body doc).1 = doc) := by
  have hnd : docStatus doc ≠ some "DRAFT" := by
    rcases hlocked with rfl | rfl | rfl <;> simp [hst]
  have hA : (updatePartA requesterId targetId body doc).1 = doc := by
    unfold updatePartA
    by_cases hr : requesterId ≠ targetId <;> simp [hr, hnd]
  have hB : (updatePartB requesterId targetId body doc).1 = doc := by
    unfold updatePartB
    by_cases hr : requesterId ≠ targetId <;> simp [hr, hnd]
  have hC : (updatePartC requesterId targetId body doc).1 = doc := by
    unfold updatePartC
    by_cases hr : requesterId ≠ targetId <;> simp [hr, hnd]
  have hD : (updatePartD requesterId targetId body doc).1 = doc := by
    unfold updatePartD
    by_cases hr : requesterId ≠ targetId <;> simp [hr, hnd]
  have hE : (updatePartE requesterId targetId body doc).1 = doc := by
    unfold updatePartE
    by_cases hr : requesterId ≠ targetId <;> simp [hr, hnd]
  have hDecl : (updateDeclaration requesterId targetId isAgreedVal doc).1 = doc := by
    unfold updateDeclaration
    by_cases hr : requesterId ≠ targetId <;> simp [hr, hnd]
  have hSubmit : (submitAppraisal requesterId targetId now doc).1 = doc := by
    unfold submitAppraisal
    by_cases hr : requesterId ≠ targetId <;> simp [hr, hnd]
  refine ⟨?_, ?_⟩
  · intro base hb leaf hl
    have hbp : ∃ r, base ++ [leaf] = "partB" :: r := by
      obtain ⟨r, hr⟩ := base_head_partB hb
      exact ⟨r ++ [leaf], by rw [hr]; rfl⟩
    refine ⟨by rw [hA], by rw [hB], by rw [hC], by rw [hD], by rw [hE], by rw [hDecl],
      updatePartDEvaluator_partB_frame role marks doc hbp, by rw [hSubmit], ?_,
      approveAppraisal_partB_frame gtv doc hbp⟩
    · by_cases hsub : docStatus doc ≠ some "SUBMITTED"
      · simp [verifyAppraisal, hsub]
      · have hrun : (verifyAppraisal vd? doc).1 = applySets doc (verifySetFields vd?) := by
          simp [verifyAppraisal, hsub]
        rw [hrun]
        exact verify_frame_facultyLeaf doc vd? hb hl
  · intro hap
    have hap' : docStatus doc = some "APPROVED" := by rw [hst, hap]
    unfold updateAppraisal
    by_cases hu : asStr (getPath body ["userId"]) ≠ some targetId <;> simp [hu, hap']

/-- C5 counterexample to the claim as stated: the legacy whole-record
update route accepts a SUBMITTED record (its only guard is against
APPROVED) and overwrites `partB.papers.sci.claimed` from 7 to 99. -/
theorem C5_updateAppraisal_counterexample :
    docStatus (sampleDoc "SUBMITTED") = some "SUBMITTED" ∧
    asNum (getPath (sampleDoc "SUBMITTED") ["partB", "papers", "sci", "claimed"])
      = some 7 ∧
    (updateAppraisal "u1" sampleLegacyUpdate (sampleDoc "SUBMITTED")).2 = none ∧
    asNum (getPath (updateAppraisal "u1" sampleLegacyUpdate (sampleDoc "SUBMITTED")).1
      ["partB", "papers", "sci", "claimed"]) = some 99 ∧
    (some (99 : Int) : Option Int) ≠ some 7 := by
  refine ⟨rfl, rfl, by decide, by decide, by decide⟩

/-- C5 witness: the amended theorem instantiated on a concrete SUBMITTED
document — `partB.papers.sci.claimed` is untouched by the evaluator-mark
route and by the verification merge. -/
theorem C5_locked_leaves_immutable_witness :
    docStatus (sampleDoc "SUBMITTED") = some "SUBMITTED" ∧
    getPath (updatePartDEvaluator "dean" (.num 4) (sampleDoc "SUBMITTED")).1
        (["partB", "papers", "sci"] ++ ["claimed"])
      = getPath (sampleDoc "SUBMITTED") (["partB", "papers", "sci"] ++ ["claimed"]) ∧
    getPath (verifyAppraisal (some sampleVD) (sampleDoc "SUBMITTED")).1
        (["partB", "papers", "sci"] ++ ["claimed"])
      = getPath (sampleDoc "SUBMITTED") (["partB", "papers", "sci"] ++ ["claimed"]) := by
  have h := (C5_locked_leaves_immutable "u1" "u1" 0 Val.null Val.null (.num 4) "dean"
    (some sampleVD) none (sampleDoc "SUBMITTED") "SUBMITTED" rfl (Or.inl rfl)).1
    ["partB", "papers", "sci"] (by decide) "claimed" (by decide)
  exact ⟨rfl, h.2.2.2.2.2.2.1, h.2.2.2.2.2.2.2.2.1⟩

/-- C1 witness: the amended lifecycle theorem instantiated on a concrete
SUBMITTED document. -/
theorem C1_lifecycle_state_machine_witness :
    docStatus (sampleDoc "SUBMITTED") = some "SUBMITTED" ∧
    "SUBMITTED" ∈ APPRAISAL_STATUS ∧
    deleteAppraisal "u1" "u1" (sampleDoc "SUBMITTED")
      = (some (sampleDoc "SUBMITTED"), some "Only DRAFT appraisals can be deleted") := by
  have h := C1_lifecycle_state_machine "u1" 0 none none (sampleDoc "SUBMITTED")
    "SUBMITTED" rfl (by decide)
  exact ⟨rfl, by decide, h.2.2.2.2.2.2.1 (by decide)⟩

/-- C3 witness: concrete dean-mark write and a concrete rejection of a
negative mark. -/
theorem C3_updatePartDEvaluator_routing_witness :
    docStatus (sampleDoc "SUBMITTED") = some "SUBMITTED" ∧
    getPath (updatePartDEvaluator "dean" (.num 4) (sampleDoc "SUBMITTED")).1
      ["partD", "deanMarks"] = some (.num 4) ∧
    getPath (updatePartDEvaluator "dean" (.num 4) (sampleDoc "SUBMITTED")).1
      ["partD", "isMarkDean"] = some (.bool true) ∧
    updatePartDEvaluator "dean" (.num (-1)) (sampleDoc "SUBMITTED")
      = (sampleDoc "SUBMITTED", some "A valid numeric \"marks\" value is required") := by
  have h := C3_updatePartDEvaluator_routing "dean" (.num 4) (sampleDoc "SUBMITTED")
  have h2 := C3_updatePartDEvaluator_routing "dean" (.num (-1)) (sampleDoc "SUBMITTED")
  refine ⟨rfl, ?_, ?_, ?_⟩
  · exact ((h.2.2 4 rfl rfl (by decide)).1 rfl).2.1
  · exact ((h.2.2 4 rfl rfl (by decide)).1 rfl).2.2.1
  · exact h2.2.1 rfl (fun n hn => by injection hn with hh; omega)

/-- C6 witness: a payload carrying `deanMarks` is stripped to its faculty
fields and persisted without error. -/
theorem C6_updatePartD_strips_evaluator_fields_witness :
    docStatus (sampleDoc "DRAFT") = some "DRAFT" ∧
    (updatePartD "u1" "u1"
      (.obj [("portfolioType", .str "both"), ("deanMarks", .num 50)])
      (sampleDoc "DRAFT")).2 = none ∧
    getPath (updatePartD "u1" "u1"
      (.obj [("portfolioType", .str "both"), ("deanMarks", .num 50)])
      (sampleDoc "DRAFT")).1 ["partD"]
      = some (.obj [("portfolioType", .str "both")]) ∧
    getPath (updatePartD "u1" "u1"
      (.obj [("portfolioType", .str "both"), ("deanMarks", .num 50)])
      (sampleDoc "DRAFT")).1 ["partD", "deanMarks"] = none := by
  have h := C6_updatePartD_strips_evaluator_fields "u1"
    [("portfolioType", .str "both"), ("deanMarks", .num 50)] (sampleDoc "DRAFT") rfl
  refine ⟨rfl, h.1, by rw [h.2.1]; rfl, h.2.2 "deanMarks" (by decide)⟩

/-- C7 witness: a concrete agreed DRAFT submit succeeds, moves to
SUBMITTED and stamps the signature date. -/
theorem C7_submit_declaration_gate_witness :
    docStatus (sampleDoc "DRAFT") = some "DRAFT" ∧
    getPath (sampleDoc "DRAFT") ["declaration", "isAgreed"] = some (.bool true) ∧
    (submitAppraisal "u1" "u1" 5 (sampleDoc "DRAFT")).2 = none ∧
    docStatus (submitAppraisal "u1" "u1" 5 (sampleDoc "DRAFT")).1 = some "SUBMITTED" ∧
    getPath (submitAppraisal "u1" "u1" 5 (sampleDoc "DRAFT")).1
      ["declaration", "signatureDate"] = some (.date 5) := by
  have h := (C7_submit_declaration_gate "u1" 5 (sampleDoc "DRAFT") true rfl rfl).2 rfl
  exact ⟨rfl, rfl, h.1, h.2.1, h.2.2⟩

/-- C10 witness: a Part B section update replaces the whole subtree — the
previously stored `papers` group is gone after an update whose payload
lacks it. -/
theorem C10_section_updates_overwrite_witness :
    docStatus (sampleDoc "DRAFT") = some "DRAFT" ∧
    getPath (updatePartB "u1" "u1" (.obj [("totalClaimed", .num 3)])
      (sampleDoc "DRAFT")).1 ["partB"] = some (.obj [("totalClaimed", .num 3)]) ∧
    getPath (updatePartB "u1" "u1" (.obj [("totalClaimed", .num 3)])
      (sampleDoc "DRAFT")).1 ["partB", "papers"] = none := by
  have h := C10_section_updates_overwrite "u1" (.obj [("totalClaimed", .num 3)])
    (sampleDoc "DRAFT") rfl
  exact ⟨rfl, h.2.1.1, h.2.1.2 "papers" rfl⟩

end FacultyAppraisal
